import Mathlib

/-
Verification development for a Connect Four game server written in Go.
The board engine, session manager, matchmaking queue and bot policy are
shallowly embedded below; Go in-place mutation is modelled by explicit
state passing, Go `time.Now()` by an explicit `now : Nat` argument, and
Go `*websocket.Conn` references by `Option Nat` identities.
-/

namespace ConnectFour

/-- Grid height constant `ROWS = 6` from the board engine. -/
def ROWS : Nat := 6

/-- Grid width constant `COLS = 7` from the board engine. -/
def COLS : Nat := 7

/-- Winning run length constant `WIN_LENGTH = 4` from the board engine. -/
def WIN_LENGTH : Nat := 4

/-- A board cell: `none` models the Go `nil` interface value, `some pid`
a piece placed by the player whose identifier string is `pid`. -/
abbrev Cell := Option String

/-- The board `[][]interface{}`: a list of rows, each a list of cells. -/
abbrev Board := List (List Cell)

/-- Read `board[row][column]` with Nat indices; reads outside the actual
list structure yield `none`. -/
def getCellN (board : Board) (row col : Nat) : Cell :=
  (board.getD row []).getD col none

/-- Read `board[row][column]` with Go int indices, guarded by the 6 by 7
bounds exactly as every Go access site checks them. -/
def getCell (board : Board) (row col : Int) : Cell :=
  if 0 ≤ row ∧ row < (ROWS : Int) ∧ 0 ≤ col ∧ col < (COLS : Int) then
    getCellN board row.toNat col.toNat
  else none

/-- Write `board[row][column] = v`. -/
def setCell (board : Board) (row col : Nat) (v : Cell) : Board :=
  board.set row ((board.getD row []).set col v)

/-- `CreateBoard`: 6 rows of 7 `nil` cells. -/
def CreateBoard : Board := List.replicate ROWS (List.replicate COLS none)

/-- Result record of the board-level `MakeMove` (Go `MoveResult`);
`Row` defaults to 0 on failure as in Go. -/
structure MoveResult where
  Success : Bool
  Message : String
  Row : Int
deriving Repr, DecidableEq

/-- The descending scan `for row := ROWS - 1; row >= 0; row--` of the Go
`MakeMove`, looking for the first empty cell from the bottom of the
column; the Nat argument is one past the next row index to try. -/
def dropRowAux (board : Board) (column : Nat) : Nat → Option Nat
  | 0 => none
  | r + 1 => if getCellN board r column = none then some r else dropRowAux board column r

/-- Board-level `MakeMove(board, column, playerID)`: validates the column,
drops the piece into the lowest empty row, and returns the updated board
(Go mutates the board in place). -/
def MakeMove (board : Board) (column : Int) (playerID : String) : MoveResult × Board :=
  if column < 0 ∨ (COLS : Int) ≤ column then
    ({ Success := false, Message := "Invalid column", Row := 0 }, board)
  else
    match dropRowAux board column.toNat ROWS with
    | some r =>
      ({ Success := true, Message := "", Row := (r : Int) },
        setCell board r column.toNat (some playerID))
    | none => ({ Success := false, Message := "Column is full", Row := 0 }, board)

/-- Result record of `CheckWin` (Go `WinResult`). -/
structure WinResult where
  Won : Bool
  Direction : String
deriving Repr, DecidableEq

/-- One arm of the `checkDirection` while loop: counts consecutive cells
equal to `some pid` walking from `(row, col)` in direction `(dR, dC)`.
The fuel bounds the walk; fuel 8 is exact because along any of the four
axes at most 7 consecutive positions are inside the 6 by 7 grid. -/
def countDir (board : Board) (dR dC : Int) (pid : String) : Int → Int → Nat → Nat
  | _, _, 0 => 0
  | row, col, fuel + 1 =>
    if 0 ≤ row ∧ row < (ROWS : Int) ∧ 0 ≤ col ∧ col < (COLS : Int)
        ∧ getCell board row col = some pid then
      countDir board dR dC pid (row + dR) (col + dC) fuel + 1
    else 0

/-- `checkDirection`: counts the placed piece plus the contiguous
same-side cells in the positive and negative directions along one axis
and tests the total against `WIN_LENGTH`. -/
def checkDirection (board : Board) (startRow startCol dR dC : Int) (pid : String) : Bool :=
  let count := 1 + countDir board dR dC pid (startRow + dR) (startCol + dC) 8
      + countDir board (-dR) (-dC) pid (startRow - dR) (startCol - dC) 8
  decide (WIN_LENGTH ≤ count)

/-- `CheckWin(board, row, col)`: false on an empty cell, otherwise tests
the four axes through the just-placed cell in the Go order. -/
def CheckWin (board : Board) (row col : Int) : WinResult :=
  match getCell board row col with
  | none => { Won := false, Direction := "" }
  | some playerID =>
    if checkDirection board row col 0 1 playerID then
      { Won := true, Direction := "horizontal" }
    else if checkDirection board row col 1 0 playerID then
      { Won := true, Direction := "vertical" }
    else if checkDirection board row col 1 1 playerID then
      { Won := true, Direction := "diagonal" }
    else if checkDirection board row col 1 (-1) playerID then
      { Won := true, Direction := "diagonal" }
    else { Won := false, Direction := "" }

/-- `IsBoardFull`: the top row has no empty cell. -/
def IsBoardFull (board : Board) : Bool :=
  (List.range COLS).all fun c => decide (getCellN board 0 c ≠ none)

/-- `GetValidMoves`: the columns (left to right) whose top cell is empty. -/
def GetValidMoves (board : Board) : List Int :=
  List.map Int.ofNat
    (List.filter (fun c => decide (getCellN board 0 c = none)) (List.range COLS))

/-- A board has the fixed 6 by 7 shape. -/
def boardShape (b : Board) : Prop :=
  b.length = ROWS ∧ ∀ row ∈ b, row.length = COLS

instance (b : Board) : Decidable (boardShape b) := by
  unfold boardShape; infer_instance

/-- The gravity invariant: in every column, a cell with an occupied cell
strictly above an empty one never occurs; occupied cells are contiguous
from the bottom row (index `ROWS - 1`) upward. -/
def gravity (b : Board) : Prop :=
  ∀ c, c < COLS → ∀ r, r < ROWS - 1 → getCellN b r c ≠ none → getCellN b (r + 1) c ≠ none

instance (b : Board) : Decidable (gravity b) := by
  unfold gravity; infer_instance

/-- Thread a sequence of board-level drops through `MakeMove`. -/
def applyDrops (b : Board) (moves : List (Int × String)) : Board :=
  moves.foldl (fun board mv => (MakeMove board mv.1 mv.2).2) b

/-- Number of occupied cells in a column, counted over the actual rows. -/
def colCount (b : Board) (column : Nat) : Nat :=
  (b.filter fun row => decide (row.getD column none ≠ none)).length

/-- The fixed payoff applied after `evaluateLine` finishes counting one
length-4 window, keyed by own, opponent and empty counts (Go order). -/
def linePayoff (playerCount opponentCount emptyCount : Nat) : Int :=
  if 0 < opponentCount ∧ 0 < playerCount then 0
  else if playerCount = WIN_LENGTH then 10000
  else if opponentCount = WIN_LENGTH then -10000
  else if opponentCount = WIN_LENGTH - 1 ∧ emptyCount = 1 then -1000
  else if playerCount = WIN_LENGTH - 1 ∧ emptyCount = 1 then 1000
  else if playerCount = WIN_LENGTH - 2 ∧ emptyCount = 2 then 100
  else if opponentCount = WIN_LENGTH - 2 ∧ emptyCount = 2 then -100
  else (playerCount : Int) * 10 - (opponentCount : Int) * 10

/-- The `for i := 0; i < WIN_LENGTH; i++` loop of `evaluateLine`; the
first Nat argument is the remaining iteration count `WIN_LENGTH - i`,
the second the Go loop index `i`, then the three running counts.
Hitting an out-of-bounds cell returns 0 immediately, as in Go. -/
def evalLineGo (board : Board) (startRow startCol dR dC : Int)
    (playerID opponentID : String) : Nat → Nat → Nat → Nat → Nat → Int
  | 0, _, pc, oc, ec => linePayoff pc oc ec
  | rem + 1, i, pc, oc, ec =>
    let row := startRow + (i : Int) * dR
    let col := startCol + (i : Int) * dC
    if row < 0 ∨ (ROWS : Int) ≤ row ∨ col < 0 ∨ (COLS : Int) ≤ col then 0
    else
      let cell := getCellN board row.toNat col.toNat
      if cell = some playerID then
        evalLineGo board startRow startCol dR dC playerID opponentID rem (i + 1) (pc + 1) oc ec
      else if cell = some opponentID then
        evalLineGo board startRow startCol dR dC playerID opponentID rem (i + 1) pc (oc + 1) ec
      else
        evalLineGo board startRow startCol dR dC playerID opponentID rem (i + 1) pc oc (ec + 1)

/-- `evaluateLine(board, startRow, startCol, deltaRow, deltaCol, p, o)`. -/
def evaluateLine (board : Board) (startRow startCol dR dC : Int)
    (playerID opponentID : String) : Int :=
  evalLineGo board startRow startCol dR dC playerID opponentID WIN_LENGTH 0 0 0 0

/-- `EvaluatePosition`: sums `evaluateLine` over every start cell and the
four axis directions. -/
def EvaluatePosition (board : Board) (playerID opponentID : String) : Int :=
  Finset.sum (Finset.range ROWS) fun row =>
    Finset.sum (Finset.range COLS) fun col =>
      evaluateLine board (row : Int) (col : Int) 0 1 playerID opponentID
      + evaluateLine board (row : Int) (col : Int) 1 0 playerID opponentID
      + evaluateLine board (row : Int) (col : Int) 1 1 playerID opponentID
      + evaluateLine board (row : Int) (col : Int) 1 (-1) playerID opponentID

/-- The Go helper `abs` from the bot package. -/
def abs (x : Int) : Int := if x < 0 then -x else x

/-- Whether simulating a drop of the opponent side into `col` and running
`CheckWin` on the landing cell reports a win (the blocking scan of the
bot policy). -/
def botSimOppWins (board : Board) (opponentID : String) (col : Int) : Bool :=
  let sim := MakeMove board col opponentID
  sim.1.Success && (CheckWin sim.2 sim.1.Row col).Won

/-- Whether simulating a drop of the bot side into `col` wins immediately
(the own-win scan of the bot policy). -/
def botSimBotWins (board : Board) (botID : String) (col : Int) : Bool :=
  let sim := MakeMove board col botID
  sim.1.Success && (CheckWin sim.2 sim.1.Row col).Won

/-- The heuristic score the bot policy assigns to a column: evaluate the
simulated drop and add the center bias `(3 - abs(col - 3)) * 5`. -/
def botMoveScore (board : Board) (botID opponentID : String) (col : Int) : Int :=
  let sim := MakeMove board col botID
  EvaluatePosition sim.2 botID opponentID + (3 - abs (col - 3)) * 5

/-- The best-score selection loop of the bot policy over the legal
columns, threading `(bestScore, bestColumn)`; a failed simulated drop is
skipped (`continue`). -/
def botBestFold (board : Board) (botID opponentID : String)
    (validMoves : List Int) (init : Int × Int) : Int × Int :=
  validMoves.foldl
    (fun best col =>
      let sim := MakeMove board col botID
      if sim.1.Success = false then best
      else
        let score := botMoveScore board botID opponentID col
        if score > best.1 then (score, col) else best)
    init

/-- The pure column selection of `bot.Player.MakeMove`: block an
immediate opponent win, else take an immediate own win, else pick the
best-scoring legal column with `-999999` as the initial best score and
the first legal column as the initial best column; `none` when there is
no legal column (the Go method just returns). -/
def botChooseColumn (board : Board) (botID opponentID : String) : Option Int :=
  match GetValidMoves board with
  | [] => none
  | first :: rest =>
    let validMoves := first :: rest
    match validMoves.find? fun col => botSimOppWins board opponentID col with
    | some blockingColumn => some blockingColumn
    | none =>
      match validMoves.find? fun col => botSimBotWins board botID col with
      | some winColumn => some winColumn
      | none => some (botBestFold board botID opponentID validMoves (-999999, first)).2

/-- A matchmaking participant (Go `matchmaking.Player`); the live
connection reference is an `Option Nat` identity. -/
structure MMPlayer where
  ID : String
  Username : String
  Conn : Option Nat
  Connected : Bool
  IsBot : Bool
deriving Repr, DecidableEq

/-- Result of `AddPlayer` (Go `MatchResult` with nilable pointers). -/
structure MatchResult where
  Matched : Bool
  Player1 : Option MMPlayer
  Player2 : Option MMPlayer
deriving Repr, DecidableEq

/-- The matchmaking `Service` state: the waiting queue and the set of
player identifiers with an armed fallback timer. The game-manager
reference and the timeout duration are external collaborators and carry
no queue state. -/
structure Service where
  waitingPlayers : List MMPlayer
  botTimers : List String
deriving Repr, DecidableEq

/-- A service with an empty queue and no armed timers. -/
def emptyService : Service := { waitingPlayers := [], botTimers := [] }

/-- `findPlayerByID`: first waiting player with the given identifier. -/
def Service.findPlayerByID (s : Service) (id : String) : Option MMPlayer :=
  s.waitingPlayers.find? fun p => decide (p.ID = id)

/-- `isPlayerWaiting`: whether the identifier is still in the queue. -/
def Service.isPlayerWaiting (s : Service) (id : String) : Bool :=
  (s.findPlayerByID id).isSome

/-- `removeWaitingPlayer`: drop every queue entry with the identifier. -/
def Service.removeWaitingPlayer (s : Service) (id : String) : Service :=
  { s with waitingPlayers := s.waitingPlayers.filter fun p => decide (p.ID ≠ id) }

/-- `AddPlayer`: stop and drop any armed timer for the arriving player,
then either pop the waiting player and report a match, or enqueue the
arrival and report waiting. -/
def Service.AddPlayer (s : Service) (player : MMPlayer) : MatchResult × Service :=
  let s1 : Service := { s with botTimers := s.botTimers.filter fun id => decide (id ≠ player.ID) }
  match s1.waitingPlayers with
  | opponent :: rest =>
    ({ Matched := true, Player1 := some opponent, Player2 := some player },
      { s1 with waitingPlayers := rest })
  | [] =>
    ({ Matched := false, Player1 := none, Player2 := none },
      { s1 with waitingPlayers := s1.waitingPlayers ++ [player] })

/-- `RemovePlayer`: withdraw the connection from the queue, then stop
and drop every timer whose player is gone or bound to that connection. -/
def Service.RemovePlayer (s : Service) (conn : Option Nat) : Service :=
  let s1 : Service := { s with waitingPlayers := s.waitingPlayers.filter fun p => decide (p.Conn ≠ conn) }
  { s1 with botTimers := s1.botTimers.filter fun pid =>
      match s1.findPlayerByID pid with
      | none => false
      | some player => decide (¬player.Conn = conn) }

/-- `ScheduleBotMatch`: arm the fallback timer for the player (a Go map
assignment keyed by the player identifier). -/
def Service.ScheduleBotMatch (s : Service) (player : MMPlayer) : Service :=
  { s with botTimers :=
      if s.botTimers.contains player.ID then s.botTimers else s.botTimers ++ [player.ID] }

/-- The body of the fallback timer armed by `ScheduleBotMatch`, run when
the timer fires: re-check queue membership, and only then remove the
entry, drop the timer handle and invoke the bot-pairing callback. The
returned Bool records whether the callback ran. -/
def Service.fireBotMatch (s : Service) (playerID : String) : Service × Bool :=
  if s.isPlayerWaiting playerID then
    ({ waitingPlayers := s.waitingPlayers.filter fun p => decide (p.ID ≠ playerID),
       botTimers := s.botTimers.filter fun id => decide (id ≠ playerID) }, true)
  else (s, false)

/-- The queue operations of claim C7. -/
inductive QOp where
  | add (p : MMPlayer)
  | remove (conn : Option Nat)

/-- Run one queue operation. -/
def applyQOp (s : Service) : QOp → Service
  | QOp.add p => (s.AddPlayer p).2
  | QOp.remove conn => s.RemovePlayer conn

/-- Run a sequence of queue operations. -/
def applyQOps (s : Service) (ops : List QOp) : Service := ops.foldl applyQOp s

/-- A game participant (Go `game.Player`). -/
structure Player where
  ID : String
  Username : String
  Conn : Option Nat
  IsBot : Bool
deriving Repr, DecidableEq

/-- One recorded move (Go `game.Move`); the timestamp is an explicit
model of `time.Now()`. -/
structure Move where
  Player : String
  Column : Int
  Row : Int
  Timestamp : Nat
deriving Repr, DecidableEq

/-- A session (Go `game.Game`). -/
structure Game where
  ID : String
  Player1 : Player
  Player2 : Player
  Board : Board
  CurrentPlayer : String
  Status : String
  Winner : String
  Moves : List Move
  StartedAt : Nat
  EndedAt : Option Nat
  LastMoveAt : Nat
deriving Repr, DecidableEq

/-- A reconnect window record. -/
structure ReconnectWindow where
  PlayerID : String
  ExpiresAt : Nat
deriving Repr, DecidableEq

/-- The session manager state (Go `game.Manager`): the live games map
and the reconnect windows map, both modelled as association lists. The
database handle and the analytics service are external collaborators. -/
structure Manager where
  games : List (String × Game)
  reconnectWindows : List (String × ReconnectWindow)
deriving Repr, DecidableEq

/-- Result of `Manager.MakeMove` and `BotMakeMove` (Go
`GameMoveResult` with a nilable game pointer). -/
structure GameMoveResult where
  Success : Bool
  Message : String
  Game : Option Game
deriving Repr, DecidableEq

/-- Result of `Manager.RejoinGame` (Go `RejoinResult`). -/
structure RejoinResult where
  Success : Bool
  Message : String
  Game : Option Game
deriving Repr, DecidableEq

/-- Association-list read of a Go map. -/
def lookupKey {α : Type} : List (String × α) → String → Option α
  | [], _ => none
  | e :: t, k => if e.1 = k then some e.2 else lookupKey t k

/-- Association-list write of a Go map: replace the keyed entry if it is
present, append it otherwise. -/
def mapSet {α : Type} (l : List (String × α)) (k : String) (v : α) : List (String × α) :=
  if l.any fun p => decide (p.1 = k) then
    l.map fun p => if p.1 = k then (k, v) else p
  else l ++ [(k, v)]

/-- Association-list delete of a Go map key. -/
def removeKey {α : Type} (l : List (String × α)) (k : String) : List (String × α) :=
  l.filter fun p => decide (p.1 ≠ k)

/-- `Manager.MakeMove(gameID, column, conn)`: validates the session, the
turn (by connection identity), the column, then applies the board-level
move, records it, checks for a win or a full board and either finishes
the session or flips the turn. The `now` argument models `time.Now()`;
the leaderboard update and analytics calls touch no manager state. -/
def Manager.MakeMove (m : Manager) (gameID : String) (column : Int)
    (conn : Option Nat) (now : Nat) : GameMoveResult × Manager :=
  match lookupKey m.games gameID with
  | none => ({ Success := false, Message := "Game not found", Game := none }, m)
  | some game =>
    if game.Status ≠ "active" then
      ({ Success := false, Message := "Game is not active", Game := none }, m)
    else
      let player := if game.CurrentPlayer = game.Player1.ID then game.Player1 else game.Player2
      if player.IsBot then
        ({ Success := false, Message := "Not your turn", Game := none }, m)
      else if player.Conn ≠ conn then
        ({ Success := false, Message := "Not your turn", Game := none }, m)
      else if column < 0 ∨ (COLS : Int) ≤ column then
        ({ Success := false, Message := "Invalid column", Game := none }, m)
      else
        let mr := ConnectFour.MakeMove game.Board column game.CurrentPlayer
        if mr.1.Success = false then
          ({ Success := false, Message := mr.1.Message, Game := none }, m)
        else
          let game1 := { game with
            Board := mr.2,
            Moves := game.Moves ++
              [({ Player := game.CurrentPlayer, Column := column, Row := mr.1.Row, Timestamp := now } : Move)],
            LastMoveAt := now }
          let game2 : Game :=
            if (CheckWin game1.Board mr.1.Row column).Won then
              { game1 with Status := "finished", Winner := game1.CurrentPlayer, EndedAt := some now }
            else if IsBoardFull game1.Board then
              { game1 with Status := "finished", Winner := "draw", EndedAt := some now }
            else
              { game1 with CurrentPlayer :=
                  if game1.CurrentPlayer = game1.Player1.ID then
                    (if game1.Player2.IsBot then "bot" else game1.Player2.ID)
                  else game1.Player1.ID }
          ({ Success := true, Message := "", Game := some game2 },
            { m with games := mapSet m.games gameID game2 })

/-- `Manager.BotMakeMove(gameID, column)`: the automated-side variant,
requiring the turn token to be the bot sentinel. -/
def Manager.BotMakeMove (m : Manager) (gameID : String) (column : Int)
    (now : Nat) : GameMoveResult × Manager :=
  match lookupKey m.games gameID with
  | none => ({ Success := false, Message := "", Game := none }, m)
  | some game =>
    if game.Status ≠ "active" then
      ({ Success := false, Message := "", Game := none }, m)
    else if game.CurrentPlayer ≠ "bot" then
      ({ Success := false, Message := "", Game := none }, m)
    else
      let mr := ConnectFour.MakeMove game.Board column "bot"
      if mr.1.Success = false then
        ({ Success := false, Message := "", Game := none }, m)
      else
        let game1 := { game with
          Board := mr.2,
          Moves := game.Moves ++
            [({ Player := "bot", Column := column, Row := mr.1.Row, Timestamp := now } : Move)],
          LastMoveAt := now }
        let game2 : Game :=
          if (CheckWin game1.Board mr.1.Row column).Won then
            { game1 with Status := "finished", Winner := "bot", EndedAt := some now }
          else if IsBoardFull game1.Board then
            { game1 with Status := "finished", Winner := "draw", EndedAt := some now }
          else
            { game1 with CurrentPlayer := game1.Player1.ID }
        ({ Success := true, Message := "", Game := some game2 },
          { m with games := mapSet m.games gameID game2 })

/-- `Manager.ForfeitGame(gameID, forfeitingPlayerID)`: a no-op unless the
session exists and is active; otherwise finish it with the other side as
winner, settle it, and delete the session and its reconnect window from
the live maps. -/
def Manager.ForfeitGame (m : Manager) (gameID forfeitingPlayerID : String)
    (now : Nat) : Option Game × Manager :=
  match lookupKey m.games gameID with
  | none => (none, m)
  | some game =>
    if game.Status ≠ "active" then (none, m)
    else
      let winner :=
        if game.Player1.ID = forfeitingPlayerID then
          (if game.Player2.IsBot then "bot" else game.Player2.ID)
        else game.Player1.ID
      let game1 := { game with Status := "finished", EndedAt := some now, Winner := winner }
      (some game1,
        { games := removeKey m.games gameID,
          reconnectWindows := removeKey m.reconnectWindows gameID })

/-- `Manager.RejoinGame(conn, username, gameID)`: requires an existing
session and a reconnect window; an expired window is consumed and the
pending forfeiture executed, a matching username rebinds that player
connection and clears the window, a mismatching username changes
nothing. -/
def Manager.RejoinGame (m : Manager) (conn : Option Nat)
    (username gameID : String) (now : Nat) : RejoinResult × Manager :=
  match lookupKey m.games gameID with
  | none => ({ Success := false, Message := "Game not found", Game := none }, m)
  | some game =>
    match lookupKey m.reconnectWindows gameID with
    | none => ({ Success := false, Message := "Reconnection window expired", Game := none }, m)
    | some reconnectInfo =>
      if reconnectInfo.ExpiresAt < now then
        let m1 : Manager := { m with reconnectWindows := removeKey m.reconnectWindows gameID }
        ({ Success := false, Message := "Reconnection window expired", Game := none },
          (m1.ForfeitGame gameID reconnectInfo.PlayerID now).2)
      else if game.Player1.Username = username then
        let game1 := { game with Player1 := { game.Player1 with Conn := conn } }
        ({ Success := true, Message := "", Game := some game1 },
          { games := mapSet m.games gameID game1,
            reconnectWindows := removeKey m.reconnectWindows gameID })
      else if game.Player2.Username = username then
        let game1 := { game with Player2 := { game.Player2 with Conn := conn } }
        ({ Success := true, Message := "", Game := some game1 },
          { games := mapSet m.games gameID game1,
            reconnectWindows := removeKey m.reconnectWindows gameID })
      else ({ Success := false, Message := "Username does not match this game", Game := none }, m)

/-- The window-arming loop of `Manager.HandleDisconnect` over the games
map entries: every active game with a non-bot participant bound to the
dropped connection gets a 30 second reconnect window. -/
def disconnectWindows (conn : Option Nat) (now : Nat)
    (entries : List (String × Game)) (ws : List (String × ReconnectWindow)) :
    List (String × ReconnectWindow) :=
  entries.foldl
    (fun acc e =>
      let game := e.2
      if game.Status ≠ "active" then acc
      else if game.Player1.Conn = conn then
        mapSet acc e.1 { PlayerID := game.Player1.ID, ExpiresAt := now + 30 }
      else if game.Player2.Conn = conn ∧ game.Player2.IsBot = false then
        mapSet acc e.1 { PlayerID := game.Player2.ID, ExpiresAt := now + 30 }
      else acc)
    ws

/-- `Manager.HandleDisconnect`: arms reconnect windows; the opponent
notification and the forfeit timers are external effects. -/
def Manager.HandleDisconnect (m : Manager) (conn : Option Nat) (now : Nat) : Manager :=
  { m with reconnectWindows := disconnectWindows conn now m.games m.reconnectWindows }

/-- The body of the forfeiture timer armed by `HandleDisconnect`, run
when the timer fires: forfeit only if the reconnect window still
exists. -/
def Manager.fireForfeit (m : Manager) (gameID playerID : String) (now : Nat) : Manager :=
  match lookupKey m.reconnectWindows gameID with
  | some _ => (m.ForfeitGame gameID playerID now).2
  | none => m

/-- The session-manager operations available against live sessions. -/
inductive MgrOp where
  | makeMove (gameID : String) (column : Int) (conn : Option Nat) (now : Nat)
  | botMove (gameID : String) (column : Int) (now : Nat)
  | rejoin (conn : Option Nat) (username gameID : String) (now : Nat)
  | forfeit (gameID playerID : String) (now : Nat)
  | disconnect (conn : Option Nat) (now : Nat)
  | fireForfeit (gameID playerID : String) (now : Nat)

/-- Run one session-manager operation, keeping only the state. -/
def applyMgrOp (m : Manager) : MgrOp → Manager
  | MgrOp.makeMove gameID column conn now => (m.MakeMove gameID column conn now).2
  | MgrOp.botMove gameID column now => (m.BotMakeMove gameID column now).2
  | MgrOp.rejoin conn username gameID now => (m.RejoinGame conn username gameID now).2
  | MgrOp.forfeit gameID playerID now => (m.ForfeitGame gameID playerID now).2
  | MgrOp.disconnect conn now => m.HandleDisconnect conn now
  | MgrOp.fireForfeit gameID playerID now => m.fireForfeit gameID playerID now

/-- Run a sequence of session-manager operations. -/
def applyMgrOps (m : Manager) (ops : List MgrOp) : Manager := ops.foldl applyMgrOp m

/-- The four axis directions `CheckWin` tests, in the Go order. -/
def axes : List (Int × Int) := [(0, 1), (1, 0), (1, 1), (1, -1)]

/-- Specification-side statement of a winning run: at least `WIN_LENGTH`
contiguous cells of side `pid` lie on the axis `(dR, dC)` through
`(row, col)`, counted outward in both directions from that cell. A cell
equation `getCell ... = some pid` also forces the cell in bounds. -/
def hasRun (board : Board) (row col dR dC : Int) (pid : String) : Prop :=
  ∃ a k : Nat, WIN_LENGTH ≤ a + k + 1 ∧
    (∀ i : Nat, i ≤ a →
      getCell board (row + (i : Int) * dR) (col + (i : Int) * dC) = some pid) ∧
    (∀ j : Nat, j ≤ k →
      getCell board (row - (j : Int) * dR) (col - (j : Int) * dC) = some pid)

/-- All four cells of the length-4 window starting at `(row, col)` in
direction `(dR, dC)` are inside the 6 by 7 grid. -/
def windowInB (row col dR dC : Int) : Prop :=
  ∀ j : Nat, j < WIN_LENGTH →
    0 ≤ row + (j : Int) * dR ∧ row + (j : Int) * dR < (ROWS : Int) ∧
    0 ≤ col + (j : Int) * dC ∧ col + (j : Int) * dC < (COLS : Int)

instance (row col dR dC : Int) : Decidable (windowInB row col dR dC) := by
  unfold windowInB; infer_instance

/-- An empty board row. -/
def cexRowEmpty : List Cell := List.replicate COLS none

/-- A row whose leftmost cell belongs to player `a`. -/
def cexRowA : List Cell := some "a" :: List.replicate 6 none

/-- A board on which player `a` has three pieces at the bottom of
column 0 and wins by dropping a fourth there. -/
def cexBoard : Board := [cexRowEmpty, cexRowEmpty, cexRowEmpty, cexRowA, cexRowA, cexRowA]

/-- First human participant of the concrete session below. -/
def cexPlayer1 : Player := { ID := "a", Username := "alice", Conn := some 1, IsBot := false }

/-- Second human participant of the concrete session below. -/
def cexPlayer2 : Player := { ID := "b", Username := "bob", Conn := some 2, IsBot := false }

/-- A concrete active session in which player `a` is one move from a
vertical win. -/
def cexGame : Game :=
  { ID := "g1", Player1 := cexPlayer1, Player2 := cexPlayer2, Board := cexBoard,
    CurrentPlayer := "a", Status := "active", Winner := "", Moves := [],
    StartedAt := 0, EndedAt := none, LastMoveAt := 0 }

/-- A manager owning only the session above. -/
def cexManager : Manager := { games := [("g1", cexGame)], reconnectWindows := [] }

/-- The manager state after player `a` plays the winning move. -/
def cexAfter : Manager := (cexManager.MakeMove "g1" 0 (some 1) 5).2

/-- The finished session produced by that winning move. -/
def cexFinishedGame : Game :=
  { cexGame with
    Board := setCell cexBoard 2 0 (some "a"),
    Moves := [{ Player := "a", Column := 0, Row := 2, Timestamp := 5 }],
    LastMoveAt := 5, Status := "finished", Winner := "a", EndedAt := some 5 }

/-- A concrete waiting participant for the queue witnesses. -/
def cexPat : MMPlayer :=
  { ID := "p", Username := "pat", Conn := some 3, Connected := true, IsBot := false }

/-- A concrete arriving participant for the queue witnesses. -/
def cexQuinn : MMPlayer :=
  { ID := "q", Username := "quinn", Conn := some 4, Connected := true, IsBot := false }

/-- A service with one waiting player and an armed fallback timer. -/
def cexService : Service := { waitingPlayers := [cexPat], botTimers := ["p"] }

/-- A service with one waiting player and no timer. -/
def cexServicePat : Service := { waitingPlayers := [cexPat], botTimers := [] }

/-- A concrete reconnect window for player `a`, expiring at 100. -/
def cexWindow : ReconnectWindow := { PlayerID := "a", ExpiresAt := 100 }

/-- A manager owning the concrete session together with an open
reconnect window for it. -/
def cexManagerW : Manager :=
  { games := [("g1", cexGame)], reconnectWindows := [("g1", cexWindow)] }

/-- Reading an updated list index returns the written element. -/
theorem getD_set_self {α : Type} (l : List α) (i : Nat) (a d : α) (h : i < l.length) :
    (l.set i a).getD i d = a := by
  induction l generalizing i with
  | nil => simp at h
  | cons x xs ih =>
    cases i with
    | zero => rfl
    | succ n =>
      simp only [List.set, List.getD_cons_succ]
      exact ih n (by simpa using h)

/-- Reading any other index is unaffected by a list update. -/
theorem getD_set_ne {α : Type} (l : List α) (i j : Nat) (a d : α) (h : i ≠ j) :
    (l.set i a).getD j d = l.getD j d := by
  induction l generalizing i j with
  | nil => simp [List.set]
  | cons x xs ih =>
    cases i with
    | zero =>
      cases j with
      | zero => exact absurd rfl h
      | succ m => simp [List.getD_cons_succ]
    | succ n =>
      cases j with
      | zero => simp [List.getD_cons_zero]
      | succ m =>
        simp only [List.set, List.getD_cons_succ]
        exact ih n m fun hnm => h (by rw [hnm])

/-- An in-range default read is a member of the list. -/
theorem getD_mem {α : Type} (l : List α) (n : Nat) (d : α) (h : n < l.length) :
    l.getD n d ∈ l := by
  induction l generalizing n with
  | nil => simp at h
  | cons x xs ih =>
    cases n with
    | zero => simp [List.getD_cons_zero]
    | succ m =>
      simp only [List.getD_cons_succ]
      exact List.mem_cons_of_mem _ (ih m (by simpa using h))

/-- Cell reads against `setCell` on a well-shaped target. -/
theorem getCellN_setCell (b : Board) (r c r' c' : Nat) (v : Cell)
    (hr : r < b.length) (hc : c < (b.getD r []).length) :
    getCellN (setCell b r c v) r' c' =
      if r' = r ∧ c' = c then v else getCellN b r' c' := by
  unfold getCellN setCell
  by_cases hrr : r' = r
  · subst hrr
    rw [getD_set_self b r' _ _ hr]
    by_cases hcc : c' = c
    · subst hcc
      rw [getD_set_self _ c' _ _ hc]
      simp
    · rw [getD_set_ne _ c c' _ _ fun hx => hcc hx.symm]
      simp [hcc]
  · rw [getD_set_ne b r r' _ _ fun hx => hrr hx.symm]
    simp [hrr]

/-- If the descending scan finds no empty cell, every scanned row of the
column is occupied. -/
theorem dropRowAux_none (b : Board) (c : Nat) :
    ∀ n, dropRowAux b c n = none → ∀ r, r < n → getCellN b r c ≠ none := by
  intro n
  induction n with
  | zero => intro _ r hr; omega
  | succ k ih =>
    intro h r hr
    unfold dropRowAux at h
    by_cases hk : getCellN b k c = none
    · simp [hk] at h
    · rw [if_neg hk] at h
      rcases Nat.lt_succ_iff_lt_or_eq.mp hr with h1 | h1
      · exact ih h r h1
      · rw [h1]; exact hk

/-- If the descending scan returns a row, that row is the lowest empty
row of the column: it is empty and every row below it is occupied. -/
theorem dropRowAux_some (b : Board) (c : Nat) :
    ∀ n r, dropRowAux b c n = some r →
      r < n ∧ getCellN b r c = none ∧ ∀ k, r < k → k < n → getCellN b k c ≠ none := by
  intro n
  induction n with
  | zero => intro r h; cases h
  | succ m ih =>
    intro r h
    unfold dropRowAux at h
    by_cases hm : getCellN b m c = none
    · rw [if_pos hm] at h
      injection h with h
      subst h
      exact ⟨Nat.lt_succ_self _, hm, fun k hk1 hk2 => by omega⟩
    · rw [if_neg hm] at h
      obtain ⟨h1, h2, h3⟩ := ih r h
      refine ⟨by omega, h2, fun k hk1 hk2 => ?_⟩
      rcases Nat.lt_succ_iff_lt_or_eq.mp hk2 with h4 | h4
      · exact h3 k hk1 h4
      · rw [h4]; exact hm

/-- A board-level move never changes the number of rows. -/
theorem length_MakeMove (b : Board) (col : Int) (p : String) :
    ((MakeMove b col p).2).length = b.length := by
  unfold MakeMove
  split
  · rfl
  · split
    · simp [setCell]
    · rfl

/-- A board-level move preserves the 6 by 7 shape. -/
theorem boardShape_MakeMove (b : Board) (col : Int) (p : String)
    (h : boardShape b) : boardShape (MakeMove b col p).2 := by
  unfold MakeMove
  split
  · exact h
  · split
    · constructor
      · simp [setCell, h.1]
      · intro row hrow
        unfold setCell at hrow
        rcases List.mem_or_eq_of_mem_set hrow with h1 | h1
        · exact h.2 row h1
        · rename_i r heq
          have hrlt : r < b.length := by
            rw [h.1]
            exact ((dropRowAux_some b _ _ _ heq).1)
          rw [h1, List.length_set]
          exact h.2 _ (getD_mem b r [] hrlt)
    · exact h

/-- Threading drops preserves the row count. -/
theorem length_applyDrops (moves : List (Int × String)) :
    ∀ b : Board, (applyDrops b moves).length = b.length := by
  induction moves with
  | nil => intro b; rfl
  | cons mv t ih =>
    intro b
    unfold applyDrops
    simp only [List.foldl_cons]
    have := ih (MakeMove b mv.1 mv.2).2
    unfold applyDrops at this
    rw [this, length_MakeMove]

/-- C5: starting from the empty board, no sequence of board-level drops
ever brings a column above `ROWS = 6` occupied cells; and a drop into an
in-range column with no empty cell fails with the column-full message
and returns the board entirely unchanged. -/
theorem C5_column_capacity :
    (∀ (moves : List (Int × String)) (column : Nat),
      colCount (applyDrops CreateBoard moves) column ≤ ROWS) ∧
    (∀ (board : Board) (column : Int) (pid : String),
      0 ≤ column → column < (COLS : Int) →
      (∀ r, r < ROWS → getCellN board r column.toNat ≠ none) →
      MakeMove board column pid =
        ({ Success := false, Message := "Column is full", Row := 0 }, board)) := by
  constructor
  · intro moves column
    have h1 : colCount (applyDrops CreateBoard moves) column ≤
        (applyDrops CreateBoard moves).length := List.length_filter_le _ _
    have h2 : (applyDrops CreateBoard moves).length = ROWS := by
      rw [length_applyDrops]
      simp [CreateBoard]
    omega
  · intro board column pid h0 h7 hfull
    unfold MakeMove
    rw [if_neg (by omega)]
    have hnone : dropRowAux board column.toNat ROWS = none := by
      cases hD : dropRowAux board column.toNat ROWS with
      | none => rfl
      | some r =>
        obtain ⟨hr, hempty, _⟩ := dropRowAux_some board column.toNat ROWS r hD
        exact absurd hempty (hfull r hr)
    rw [hnone]

/-- Closed witness for C5 on a concrete full column. -/
theorem C5_column_capacity_witness :
    colCount (applyDrops CreateBoard [((0 : Int), "a")]) 0 ≤ ROWS ∧
    MakeMove [[some "a"], [some "a"], [some "a"], [some "a"], [some "a"], [some "a"]] 0 "b" =
      ({ Success := false, Message := "Column is full", Row := 0 },
        [[some "a"], [some "a"], [some "a"], [some "a"], [some "a"], [some "a"]]) :=
  ⟨C5_column_capacity.1 [((0 : Int), "a")] 0,
    C5_column_capacity.2 _ 0 "b" (by decide) (by decide) (by decide)⟩

/-- C9: on a well-shaped board satisfying the gravity invariant, a
successful drop lands in the lowest empty row of its column (every row
below it is occupied), the returned board is exactly that single-cell
update, and the gravity invariant still holds afterwards. -/
theorem C9_gravity_preserved :
    ∀ (board : Board) (column : Int) (pid : String),
      boardShape board → gravity board →
      ((MakeMove board column pid).1).Success = true →
      ∃ r : Nat,
        ((MakeMove board column pid).1).Row = (r : Int) ∧ r < ROWS ∧
        getCellN board r column.toNat = none ∧
        (∀ k, r < k → k < ROWS → getCellN board k column.toNat ≠ none) ∧
        (MakeMove board column pid).2 = setCell board r column.toNat (some pid) ∧
        getCellN ((MakeMove board column pid).2) r column.toNat = some pid ∧
        gravity ((MakeMove board column pid).2) := by
  intro board column pid hshape hgrav hsucc
  by_cases hcol : column < 0 ∨ (COLS : Int) ≤ column
  · exfalso
    unfold MakeMove at hsucc
    rw [if_pos hcol] at hsucc
    cases hsucc
  · cases hD : dropRowAux board column.toNat ROWS with
    | none =>
      exfalso
      unfold MakeMove at hsucc
      rw [if_neg hcol, hD] at hsucc
      cases hsucc
    | some r =>
      have hEq : MakeMove board column pid =
          ({ Success := true, Message := "", Row := (r : Int) },
            setCell board r column.toNat (some pid)) := by
        unfold MakeMove
        rw [if_neg hcol, hD]
      have h1 : (MakeMove board column pid).1 =
          { Success := true, Message := "", Row := (r : Int) } := by rw [hEq]
      have h2 : (MakeMove board column pid).2 =
          setCell board r column.toNat (some pid) := by rw [hEq]
      rw [h1, h2]
      obtain ⟨hrR, hempty, hbelow⟩ := dropRowAux_some board column.toNat ROWS r hD
      have hrlen : r < board.length := by rw [hshape.1]; exact hrR
      have hclen : column.toNat < (board.getD r []).length := by
        rw [hshape.2 _ (getD_mem board r [] hrlen)]
        omega
      have hset : ∀ r' c' : Nat,
          getCellN (setCell board r column.toNat (some pid)) r' c' =
            if r' = r ∧ c' = column.toNat then some pid else getCellN board r' c' :=
        fun r' c' => getCellN_setCell board r column.toNat r' c' (some pid) hrlen hclen
      refine ⟨r, rfl, hrR, hempty, hbelow, rfl, ?_, ?_⟩
      · rw [hset r column.toNat]
        simp
      · intro c hc r' hr' hocc
        rw [hset r' c] at hocc
        rw [hset (r' + 1) c]
        by_cases hcc : c = column.toNat
        · subst hcc
          by_cases hrr : r' = r
          · subst hrr
            rw [if_neg (by omega)]
            exact hbelow (r' + 1) (by omega) (by omega)
          · rw [if_neg (by simp [hrr])] at hocc
            have hup := hgrav _ hc r' hr' hocc
            by_cases hru : r' + 1 = r
            · rw [if_pos ⟨hru, rfl⟩]
              simp
            · rw [if_neg (by simp [hru])]
              exact hup
        · rw [if_neg (by simp [hcc])] at hocc
          rw [if_neg (by simp [hcc])]
          exact hgrav c hc r' hr' hocc

/-- Closed witness for C9 on the concrete pre-win board. -/
theorem C9_gravity_preserved_witness :
    boardShape cexBoard ∧ gravity cexBoard ∧
    ((MakeMove cexBoard 0 "a").1).Success = true ∧
    ∃ r : Nat,
      ((MakeMove cexBoard 0 "a").1).Row = (r : Int) ∧ r < ROWS ∧
      getCellN cexBoard r (0 : Int).toNat = none ∧
      (∀ k, r < k → k < ROWS → getCellN cexBoard k (0 : Int).toNat ≠ none) ∧
      (MakeMove cexBoard 0 "a").2 = setCell cexBoard r (0 : Int).toNat (some "a") ∧
      getCellN ((MakeMove cexBoard 0 "a").2) r (0 : Int).toNat = some "a" ∧
      gravity ((MakeMove cexBoard 0 "a").2) :=
  ⟨by decide, by decide, by decide,
    C9_gravity_preserved cexBoard 0 "a" (by decide) (by decide) (by decide)⟩

/-- A successful guarded read implies the in-range bounds. -/
theorem getCell_some_bounds (b : Board) (row col : Int) (pid : String)
    (h : getCell b row col = some pid) :
    0 ≤ row ∧ row < (ROWS : Int) ∧ 0 ≤ col ∧ col < (COLS : Int) := by
  unfold getCell at h
  by_cases hb : 0 ≤ row ∧ row < (ROWS : Int) ∧ 0 ≤ col ∧ col < (COLS : Int)
  · exact hb
  · rw [if_neg hb] at h; cases h

/-- Every cell the directional count passes over matches the side. -/
theorem countDir_matches (b : Board) (dR dC : Int) (pid : String) :
    ∀ fuel row col i, i < countDir b dR dC pid row col fuel →
      getCell b (row + (i : Int) * dR) (col + (i : Int) * dC) = some pid := by
  intro fuel
  induction fuel with
  | zero => intro row col i h; simp [countDir] at h
  | succ k ih =>
    intro row col i h
    simp only [countDir] at h
    by_cases hcond : 0 ≤ row ∧ row < (ROWS : Int) ∧ 0 ≤ col ∧ col < (COLS : Int)
        ∧ getCell b row col = some pid
    · rw [if_pos hcond] at h
      cases i with
      | zero => simpa using hcond.2.2.2.2
      | succ j =>
        have hj : j < countDir b dR dC pid (row + dR) (col + dC) k := by omega
        have hih := ih (row + dR) (col + dC) j hj
        have e1 : row + ((j + 1 : Nat) : Int) * dR = row + dR + (j : Int) * dR := by
          push_cast; ring
        have e2 : col + ((j + 1 : Nat) : Int) * dC = col + dC + (j : Int) * dC := by
          push_cast; ring
        rw [e1, e2]
        exact hih
    · rw [if_neg hcond] at h; omega

/-- The directional count reaches any fully matched prefix within fuel. -/
theorem countDir_ge (b : Board) (dR dC : Int) (pid : String) :
    ∀ fuel k row col, k ≤ fuel →
      (∀ i : Nat, i < k →
        getCell b (row + (i : Int) * dR) (col + (i : Int) * dC) = some pid) →
      k ≤ countDir b dR dC pid row col fuel := by
  intro fuel
  induction fuel with
  | zero => intro k row col hk _; omega
  | succ m ih =>
    intro k row col hk hmatch
    cases k with
    | zero => exact Nat.zero_le _
    | succ j =>
      have h0 : getCell b row col = some pid := by
        have h00 := hmatch 0 (by omega)
        simpa using h00
      obtain ⟨hb1, hb2, hb3, hb4⟩ := getCell_some_bounds b row col pid h0
      simp only [countDir]
      rw [if_pos ⟨hb1, hb2, hb3, hb4, h0⟩]
      have hrec : j ≤ countDir b dR dC pid (row + dR) (col + dC) m := by
        apply ih j (row + dR) (col + dC) (by omega)
        intro i hi
        have hm := hmatch (i + 1) (by omega)
        have e1 : row + ((i + 1 : Nat) : Int) * dR = row + dR + (i : Int) * dR := by
          push_cast; ring
        have e2 : col + ((i + 1 : Nat) : Int) * dC = col + dC + (i : Int) * dC := by
          push_cast; ring
        rw [e1, e2] at hm
        exact hm
      omega

/-- Soundness of one `checkDirection` call against the run predicate. -/
theorem checkDirection_sound (b : Board) (row col dR dC : Int) (pid : String)
    (hcenter : getCell b row col = some pid)
    (h : checkDirection b row col dR dC pid = true) :
    hasRun b row col dR dC pid := by
  unfold checkDirection at h
  simp only [decide_eq_true_eq] at h
  refine ⟨countDir b dR dC pid (row + dR) (col + dC) 8,
      countDir b (-dR) (-dC) pid (row - dR) (col - dC) 8, by omega, ?_, ?_⟩
  · intro i hi
    cases i with
    | zero => simpa using hcenter
    | succ j =>
      have hj : j < countDir b dR dC pid (row + dR) (col + dC) 8 := by omega
      have hm := countDir_matches b dR dC pid 8 (row + dR) (col + dC) j hj
      have e1 : row + dR + (j : Int) * dR = row + ((j + 1 : Nat) : Int) * dR := by
        push_cast; ring
      have e2 : col + dC + (j : Int) * dC = col + ((j + 1 : Nat) : Int) * dC := by
        push_cast; ring
      rw [e1, e2] at hm
      exact hm
  · intro j hj
    cases j with
    | zero => simpa using hcenter
    | succ i =>
      have hi : i < countDir b (-dR) (-dC) pid (row - dR) (col - dC) 8 := by omega
      have hm := countDir_matches b (-dR) (-dC) pid 8 (row - dR) (col - dC) i hi
      have e1 : row - dR + (i : Int) * -dR = row - ((i + 1 : Nat) : Int) * dR := by
        push_cast; ring
      have e2 : col - dC + (i : Int) * -dC = col - ((i + 1 : Nat) : Int) * dC := by
        push_cast; ring
      rw [e1, e2] at hm
      exact hm

/-- Completeness of one `checkDirection` call: a run whose two arm
lengths fit in the loop fuel makes the check succeed. -/
theorem checkDirection_complete (b : Board) (row col dR dC : Int) (pid : String)
    (a k : Nat) (ha : a ≤ 8) (hk : k ≤ 8)
    (hpos : ∀ i : Nat, i ≤ a →
      getCell b (row + (i : Int) * dR) (col + (i : Int) * dC) = some pid)
    (hneg : ∀ j : Nat, j ≤ k →
      getCell b (row - (j : Int) * dR) (col - (j : Int) * dC) = some pid)
    (hlen : WIN_LENGTH ≤ a + k + 1) :
    checkDirection b row col dR dC pid = true := by
  unfold checkDirection
  simp only [decide_eq_true_eq]
  have hcp : a ≤ countDir b dR dC pid (row + dR) (col + dC) 8 := by
    apply countDir_ge b dR dC pid 8 a (row + dR) (col + dC) ha
    intro i hi
    have hm := hpos (i + 1) (by omega)
    have e1 : row + ((i + 1 : Nat) : Int) * dR = row + dR + (i : Int) * dR := by
      push_cast; ring
    have e2 : col + ((i + 1 : Nat) : Int) * dC = col + dC + (i : Int) * dC := by
      push_cast; ring
    rw [e1, e2] at hm
    exact hm
  have hcn : k ≤ countDir b (-dR) (-dC) pid (row - dR) (col - dC) 8 := by
    apply countDir_ge b (-dR) (-dC) pid 8 k (row - dR) (col - dC) hk
    intro j hj
    have hm := hneg (j + 1) (by omega)
    have e1 : row - ((j + 1 : Nat) : Int) * dR = row - dR + (j : Int) * -dR := by
      push_cast; ring
    have e2 : col - ((j + 1 : Nat) : Int) * dC = col - dC + (j : Int) * -dC := by
      push_cast; ring
    rw [e1, e2] at hm
    exact hm
  omega

/-- C1: for every in-range cell, `CheckWin` reports a win exactly when
some axis carries at least `WIN_LENGTH` contiguous same-side cells
through the cell, counted outward in both directions from it; and it
reports no win whenever the cell is empty. -/
theorem C1_checkWin_spec :
    ∀ (board : Board) (row col : Int),
      0 ≤ row → row < (ROWS : Int) → 0 ≤ col → col < (COLS : Int) →
      (((CheckWin board row col).Won = true ↔
        ∃ pid, getCell board row col = some pid ∧
          ∃ d ∈ axes, hasRun board row col d.1 d.2 pid) ∧
      (getCell board row col = none → (CheckWin board row col).Won = false)) := by
  intro board row col h1 h2 h3 h4
  cases hcell : getCell board row col with
  | none =>
    constructor
    · constructor
      · intro hW
        exfalso
        unfold CheckWin at hW
        rw [hcell] at hW
        simp at hW
      · rintro ⟨pid, hp, _⟩
        cases hp
    · intro _
      unfold CheckWin
      rw [hcell]
  | some pid =>
    have hC := getCell_some_bounds board row col pid hcell
    have hWon : (CheckWin board row col).Won = true ↔
        (checkDirection board row col 0 1 pid = true ∨
          checkDirection board row col 1 0 pid = true ∨
          checkDirection board row col 1 1 pid = true ∨
          checkDirection board row col 1 (-1) pid = true) := by
      unfold CheckWin
      rw [hcell]
      by_cases hd1 : checkDirection board row col 0 1 pid = true <;>
        by_cases hd2 : checkDirection board row col 1 0 pid = true <;>
          by_cases hd3 : checkDirection board row col 1 1 pid = true <;>
            by_cases hd4 : checkDirection board row col 1 (-1) pid = true <;>
              simp [hd1, hd2, hd3, hd4]
    constructor
    · rw [hWon]
      constructor
      · intro hOr
        refine ⟨pid, rfl, ?_⟩
        rcases hOr with h | h | h | h
        · exact ⟨(0, 1), by simp [axes], checkDirection_sound board row col 0 1 pid hcell h⟩
        · exact ⟨(1, 0), by simp [axes], checkDirection_sound board row col 1 0 pid hcell h⟩
        · exact ⟨(1, 1), by simp [axes], checkDirection_sound board row col 1 1 pid hcell h⟩
        · exact ⟨(1, -1), by simp [axes], checkDirection_sound board row col 1 (-1) pid hcell h⟩
      · rintro ⟨pid2, hp2, d, hd, hrun⟩
        injection hp2 with hp2
        subst hp2
        simp only [axes, List.mem_cons, List.not_mem_nil, or_false] at hd
        rcases hd with rfl | rfl | rfl | rfl <;> dsimp only at hrun
        · obtain ⟨a, k, hlen, hpos, hneg⟩ := hrun
          have hA := getCell_some_bounds _ _ _ _ (hpos a (le_refl a))
          have hB := getCell_some_bounds _ _ _ _ (hneg k (le_refl k))
          have ha : a ≤ 8 := by
            simp only [ROWS, COLS] at hA hC
            push_cast at hA hC
            omega
          have hk : k ≤ 8 := by
            simp only [ROWS, COLS] at hB hC
            push_cast at hB hC
            omega
          exact Or.inl (checkDirection_complete board row col 0 1 pid a k ha hk hpos hneg hlen)
        · obtain ⟨a, k, hlen, hpos, hneg⟩ := hrun
          have hA := getCell_some_bounds _ _ _ _ (hpos a (le_refl a))
          have hB := getCell_some_bounds _ _ _ _ (hneg k (le_refl k))
          have ha : a ≤ 8 := by
            simp only [ROWS, COLS] at hA hC
            push_cast at hA hC
            omega
          have hk : k ≤ 8 := by
            simp only [ROWS, COLS] at hB hC
            push_cast at hB hC
            omega
          exact Or.inr (Or.inl
            (checkDirection_complete board row col 1 0 pid a k ha hk hpos hneg hlen))
        · obtain ⟨a, k, hlen, hpos, hneg⟩ := hrun
          have hA := getCell_some_bounds _ _ _ _ (hpos a (le_refl a))
          have hB := getCell_some_bounds _ _ _ _ (hneg k (le_refl k))
          have ha : a ≤ 8 := by
            simp only [ROWS, COLS] at hA hC
            push_cast at hA hC
            omega
          have hk : k ≤ 8 := by
            simp only [ROWS, COLS] at hB hC
            push_cast at hB hC
            omega
          exact Or.inr (Or.inr (Or.inl
            (checkDirection_complete board row col 1 1 pid a k ha hk hpos hneg hlen)))
        · obtain ⟨a, k, hlen, hpos, hneg⟩ := hrun
          have hA := getCell_some_bounds _ _ _ _ (hpos a (le_refl a))
          have hB := getCell_some_bounds _ _ _ _ (hneg k (le_refl k))
          have ha : a ≤ 8 := by
            simp only [ROWS, COLS] at hA hC
            push_cast at hA hC
            omega
          have hk : k ≤ 8 := by
            simp only [ROWS, COLS] at hB hC
            push_cast at hB hC
            omega
          exact Or.inr (Or.inr (Or.inr
            (checkDirection_complete board row col 1 (-1) pid a k ha hk hpos hneg hlen)))
    · intro hnone
      exact absurd hnone (by simp)

/-- Closed witness for C1 at an in-range cell of the concrete board. -/
theorem C1_checkWin_spec_witness :
    (0 : Int) ≤ 5 ∧ (5 : Int) < (ROWS : Int) ∧ (0 : Int) ≤ 0 ∧ (0 : Int) < (COLS : Int) ∧
    (((CheckWin cexBoard 5 0).Won = true ↔
      ∃ pid, getCell cexBoard 5 0 = some pid ∧
        ∃ d ∈ axes, hasRun cexBoard 5 0 d.1 d.2 pid) ∧
    (getCell cexBoard 5 0 = none → (CheckWin cexBoard 5 0).Won = false)) :=
  ⟨by decide, by decide, by decide, by decide,
    C1_checkWin_spec cexBoard 5 0 (by decide) (by decide) (by decide) (by decide)⟩

/-- The window payoff negates when the two sides swap roles. -/
theorem linePayoff_swap (p o e : Nat) (h : p + o + e = 4) :
    linePayoff p o e = -linePayoff o p e := by
  have hp : p ≤ 4 := by omega
  have ho : o ≤ 4 := by omega
  have he : e ≤ 4 := by omega
  interval_cases p <;> interval_cases o <;> interval_cases e <;> first | omega | decide

/-- The window payoff is at least the maximal penalty. -/
theorem linePayoff_lb (p o e : Nat) (h : p + o + e = 4) :
    -10000 ≤ linePayoff p o e := by
  have hp : p ≤ 4 := by omega
  have ho : o ≤ 4 := by omega
  have he : e ≤ 4 := by omega
  interval_cases p <;> interval_cases o <;> interval_cases e <;> first | omega | decide

/-- The `evaluateLine` loop negates when the two sides swap roles,
provided the side identifiers differ. -/
theorem evalLineGo_swap (b : Board) (sR sC dR dC : Int) (pa pb : String) (hab : pa ≠ pb) :
    ∀ rem i pc oc ec, pc + oc + ec + rem = 4 →
      evalLineGo b sR sC dR dC pa pb rem i pc oc ec =
        -evalLineGo b sR sC dR dC pb pa rem i oc pc ec := by
  intro rem
  induction rem with
  | zero =>
    intro i pc oc ec h
    simp only [evalLineGo]
    exact linePayoff_swap pc oc ec (by omega)
  | succ m ih =>
    intro i pc oc ec h
    simp only [evalLineGo]
    by_cases hoob : sR + (i : Int) * dR < 0 ∨ (ROWS : Int) ≤ sR + (i : Int) * dR ∨
        sC + (i : Int) * dC < 0 ∨ (COLS : Int) ≤ sC + (i : Int) * dC
    · rw [if_pos hoob, if_pos hoob]
      simp
    · rw [if_neg hoob, if_neg hoob]
      by_cases hca : getCellN b (sR + (i : Int) * dR).toNat (sC + (i : Int) * dC).toNat = some pa
      · have hcb : ¬getCellN b (sR + (i : Int) * dR).toNat (sC + (i : Int) * dC).toNat = some pb := by
          rw [hca]
          intro hx
          injection hx with hx
          exact hab hx
        rw [if_pos hca, if_neg hcb, if_pos hca]
        exact ih (i + 1) (pc + 1) oc ec (by omega)
      · by_cases hcb : getCellN b (sR + (i : Int) * dR).toNat (sC + (i : Int) * dC).toNat = some pb
        · rw [if_neg hca, if_pos hcb, if_pos hcb]
          exact ih (i + 1) pc (oc + 1) ec (by omega)
        · rw [if_neg hca, if_neg hcb, if_neg hcb, if_neg hca]
          exact ih (i + 1) pc oc (ec + 1) (by omega)

/-- `evaluateLine` negates when the two sides swap roles. -/
theorem evaluateLine_swap (b : Board) (sR sC dR dC : Int) (pa pb : String)
    (hab : pa ≠ pb) :
    evaluateLine b sR sC dR dC pa pb = -evaluateLine b sR sC dR dC pb pa :=
  evalLineGo_swap b sR sC dR dC pa pb hab WIN_LENGTH 0 0 0 0 (by simp [WIN_LENGTH])

/-- C10: the static evaluator is antisymmetric in its two side
identifiers whenever they differ. -/
theorem C10_evaluate_antisymm :
    ∀ (board : Board) (a b : String), a ≠ b →
      EvaluatePosition board a b = -EvaluatePosition board b a := by
  intro board a b hab
  unfold EvaluatePosition
  rw [← Finset.sum_neg_distrib]
  apply Finset.sum_congr rfl
  intro r _
  rw [← Finset.sum_neg_distrib]
  apply Finset.sum_congr rfl
  intro c _
  rw [evaluateLine_swap board _ _ 0 1 a b hab, evaluateLine_swap board _ _ 1 0 a b hab,
    evaluateLine_swap board _ _ 1 1 a b hab, evaluateLine_swap board _ _ 1 (-1) a b hab]
  ring

/-- Closed witness for C10 on the concrete board. -/
theorem C10_evaluate_antisymm_witness :
    "a" ≠ "b" ∧ EvaluatePosition cexBoard "a" "b" = -EvaluatePosition cexBoard "b" "a" :=
  ⟨by decide, C10_evaluate_antisymm cexBoard "a" "b" (by decide)⟩

/-- The `evaluateLine` loop never goes below the maximal penalty. -/
theorem evalLineGo_lb (b : Board) (sR sC dR dC : Int) (pa pb : String) :
    ∀ rem i pc oc ec, pc + oc + ec + rem = 4 →
      -10000 ≤ evalLineGo b sR sC dR dC pa pb rem i pc oc ec := by
  intro rem
  induction rem with
  | zero =>
    intro i pc oc ec h
    simp only [evalLineGo]
    exact linePayoff_lb pc oc ec (by omega)
  | succ m ih =>
    intro i pc oc ec h
    simp only [evalLineGo]
    split
    · norm_num
    · split
      · exact ih (i + 1) (pc + 1) oc ec (by omega)
      · split
        · exact ih (i + 1) pc (oc + 1) ec (by omega)
        · exact ih (i + 1) pc oc (ec + 1) (by omega)

/-- The `evaluateLine` loop returns 0 as soon as any index it will still
visit falls out of bounds. -/
theorem evalLineGo_oob (b : Board) (sR sC dR dC : Int) (pa pb : String) :
    ∀ rem i pc oc ec,
      (∃ j : Nat, i ≤ j ∧ j < i + rem ∧
        (sR + (j : Int) * dR < 0 ∨ (ROWS : Int) ≤ sR + (j : Int) * dR ∨
          sC + (j : Int) * dC < 0 ∨ (COLS : Int) ≤ sC + (j : Int) * dC)) →
      evalLineGo b sR sC dR dC pa pb rem i pc oc ec = 0 := by
  intro rem
  induction rem with
  | zero =>
    rintro i pc oc ec ⟨j, hj1, hj2, _⟩
    omega
  | succ m ih =>
    rintro i pc oc ec ⟨j, hj1, hj2, hoob⟩
    simp only [evalLineGo]
    by_cases hcur : sR + (i : Int) * dR < 0 ∨ (ROWS : Int) ≤ sR + (i : Int) * dR ∨
        sC + (i : Int) * dC < 0 ∨ (COLS : Int) ≤ sC + (i : Int) * dC
    · rw [if_pos hcur]
    · rw [if_neg hcur]
      have hji : j ≠ i := by
        intro he
        rw [he] at hoob
        exact hcur hoob
      split
      · exact ih (i + 1) _ _ _ ⟨j, by omega, by omega, hoob⟩
      · split
        · exact ih (i + 1) _ _ _ ⟨j, by omega, by omega, hoob⟩
        · exact ih (i + 1) _ _ _ ⟨j, by omega, by omega, hoob⟩

/-- Per-window lower bound: an in-bounds window contributes at least
`-10000`, an out-of-bounds window exactly 0. -/
theorem evaluateLine_ge (b : Board) (sR sC dR dC : Int) (pa pb : String) :
    (if windowInB sR sC dR dC then (-10000 : Int) else 0) ≤
      evaluateLine b sR sC dR dC pa pb := by
  by_cases hw : windowInB sR sC dR dC
  · rw [if_pos hw]
    exact evalLineGo_lb b sR sC dR dC pa pb WIN_LENGTH 0 0 0 0 (by simp [WIN_LENGTH])
  · rw [if_neg hw]
    unfold windowInB at hw
    push_neg at hw
    obtain ⟨j, hjW, hP⟩ := hw
    have hdisj : sR + (j : Int) * dR < 0 ∨ (ROWS : Int) ≤ sR + (j : Int) * dR ∨
        sC + (j : Int) * dC < 0 ∨ (COLS : Int) ≤ sC + (j : Int) * dC := by
      rcases lt_or_le (sR + (j : Int) * dR) 0 with h | h1
      · exact Or.inl h
      rcases le_or_lt (ROWS : Int) (sR + (j : Int) * dR) with h | h2
      · exact Or.inr (Or.inl h)
      rcases lt_or_le (sC + (j : Int) * dC) 0 with h | h3
      · exact Or.inr (Or.inr (Or.inl h))
      exact Or.inr (Or.inr (Or.inr (hP h1 h2 h3)))
    have h0 : evaluateLine b sR sC dR dC pa pb = 0 := by
      unfold evaluateLine
      exact evalLineGo_oob b sR sC dR dC pa pb WIN_LENGTH 0 0 0 0
        ⟨j, Nat.zero_le j, by omega, hdisj⟩
    rw [h0]

/-- Global lower bound of the static evaluator: only 69 windows are in
bounds, so the sum never drops below `-690000`. -/
theorem EvaluatePosition_lb (b : Board) (pa pb : String) :
    -690000 ≤ EvaluatePosition b pa pb := by
  unfold EvaluatePosition
  have hsum : (Finset.sum (Finset.range ROWS) fun row =>
      Finset.sum (Finset.range COLS) fun col =>
        (if windowInB (row : Int) (col : Int) 0 1 then (-10000 : Int) else 0)
        + (if windowInB (row : Int) (col : Int) 1 0 then (-10000 : Int) else 0)
        + (if windowInB (row : Int) (col : Int) 1 1 then (-10000 : Int) else 0)
        + (if windowInB (row : Int) (col : Int) 1 (-1) then (-10000 : Int) else 0)) =
      -690000 := by decide
  calc (-690000 : Int) =
      Finset.sum (Finset.range ROWS) fun row =>
        Finset.sum (Finset.range COLS) fun col =>
          (if windowInB (row : Int) (col : Int) 0 1 then (-10000 : Int) else 0)
          + (if windowInB (row : Int) (col : Int) 1 0 then (-10000 : Int) else 0)
          + (if windowInB (row : Int) (col : Int) 1 1 then (-10000 : Int) else 0)
          + (if windowInB (row : Int) (col : Int) 1 (-1) then (-10000 : Int) else 0) :=
        hsum.symm
    _ ≤ _ := by
        apply Finset.sum_le_sum
        intro r _
        apply Finset.sum_le_sum
        intro c _
        have h1 := evaluateLine_ge b (r : Int) (c : Int) 0 1 pa pb
        have h2 := evaluateLine_ge b (r : Int) (c : Int) 1 0 pa pb
        have h3 := evaluateLine_ge b (r : Int) (c : Int) 1 1 pa pb
        have h4 := evaluateLine_ge b (r : Int) (c : Int) 1 (-1) pa pb
        omega

/-- Every legal column is an in-range column index. -/
theorem GetValidMoves_mem_bounds (board : Board) :
    ∀ x ∈ GetValidMoves board, 0 ≤ x ∧ x < (COLS : Int) := by
  intro x hx
  unfold GetValidMoves at hx
  simp only [List.mem_map, List.mem_filter, List.mem_range] at hx
  obtain ⟨c, ⟨hc7, _⟩, rfl⟩ := hx
  simp only [Int.ofNat_eq_natCast]
  constructor
  · omega
  · omega

/-- A drop into a legal column always succeeds. -/
theorem GetValidMoves_success (board : Board) (pid : String) :
    ∀ x ∈ GetValidMoves board, (MakeMove board x pid).1.Success = true := by
  intro x hx
  unfold GetValidMoves at hx
  simp only [List.mem_map, List.mem_filter, List.mem_range, decide_eq_true_eq] at hx
  obtain ⟨c, ⟨hc7, hc0⟩, rfl⟩ := hx
  unfold MakeMove
  have hcI : ¬(Int.ofNat c < 0 ∨ (COLS : Int) ≤ Int.ofNat c) := by
    simp only [COLS] at hc7 ⊢
    simp only [Int.ofNat_eq_natCast]
    omega
  rw [if_neg hcI]
  have htn : (Int.ofNat c).toNat = c := rfl
  cases hD : dropRowAux board (Int.ofNat c).toNat ROWS with
  | some r => rfl
  | none =>
    exfalso
    rw [htn] at hD
    exact dropRowAux_none board c ROWS hD 0 (by simp [ROWS]) hc0

/-- The legal column list is strictly increasing. -/
theorem GetValidMoves_pairwise (board : Board) :
    (GetValidMoves board).Pairwise (· < ·) := by
  unfold GetValidMoves
  refine List.Pairwise.map _ ?_ (List.Pairwise.filter _ (List.pairwise_lt_range COLS))
  intro a b hab
  simp only [Int.ofNat_eq_natCast]
  omega

/-- The heuristic score of every legal column beats the Go fold
initial value `-999999`. -/
theorem botMoveScore_gt_init (board : Board) (botID opponentID : String) :
    ∀ x ∈ GetValidMoves board, -999999 < botMoveScore board botID opponentID x := by
  intro x hx
  obtain ⟨h0, h7⟩ := GetValidMoves_mem_bounds board x hx
  simp only [botMoveScore]
  have hE := EvaluatePosition_lb (MakeMove board x botID).2 botID opponentID
  have habs : 0 ≤ (3 - abs (x - 3)) * 5 := by
    unfold abs
    simp only [COLS] at h7
    push_cast at h7
    split <;> omega
  omega

/-- Under all-successful simulated drops, the bot best-score fold is the
plain argmax fold over the heuristic score. -/
theorem botBestFold_eq_pure (board : Board) (botID opponentID : String) :
    ∀ (l : List Int) (init : Int × Int),
      (∀ x ∈ l, (MakeMove board x botID).1.Success = true) →
      botBestFold board botID opponentID l init =
        l.foldl
          (fun best col =>
            if botMoveScore board botID opponentID col > best.1 then
              (botMoveScore board botID opponentID col, col)
            else best)
          init := by
  intro l
  induction l with
  | nil => intro init _; rfl
  | cons y t ih =>
    intro init hsucc
    have hy : (MakeMove board y botID).1.Success = true := hsucc y (List.mem_cons_self y t)
    unfold botBestFold
    simp only [List.foldl_cons, hy]
    have ht := ih (if botMoveScore board botID opponentID y > init.1 then
        (botMoveScore board botID opponentID y, y) else init)
      fun x hx => hsucc x (List.mem_cons_of_mem y hx)
    unfold botBestFold at ht
    simpa using ht

/-- The strict-improvement fold starting from an attained score returns
the first-encountered maximum of a strictly increasing candidate list. -/
theorem argmaxFold_spec (f : Int → Int) :
    ∀ (l : List Int) (m : Int),
      (∀ x ∈ l, m < x) → l.Pairwise (· < ·) →
      ∀ r, r = l.foldl (fun best col => if f col > best.1 then (f col, col) else best) (f m, m) →
        (r.2 = m ∨ r.2 ∈ l) ∧ r.1 = f r.2 ∧ f m ≤ r.1 ∧
        (∀ x ∈ l, f x ≤ r.1) ∧ (r.1 = f m → r.2 = m) ∧
        (∀ x ∈ l, r.1 = f x → r.2 ≤ x) := by
  intro l
  induction l with
  | nil =>
    intro m _ _ r hr
    rw [hr]
    refine ⟨Or.inl rfl, rfl, le_refl _, by simp, fun _ => rfl, by simp⟩
  | cons y t ih =>
    intro m hlt hpw r hr
    have hpw2 := List.pairwise_cons.mp hpw
    simp only [List.foldl_cons] at hr
    by_cases hgt : f y > f m
    · rw [if_pos hgt] at hr
      have hyt : ∀ x ∈ t, y < x := hpw2.1
      obtain ⟨hm1, hm2, hm3, hm4, hm5, hm6⟩ := ih y hyt hpw2.2 r hr
      refine ⟨?_, hm2, by omega, ?_, ?_, ?_⟩
      · rcases hm1 with h | h
        · exact Or.inr (by rw [h]; exact List.mem_cons_self y t)
        · exact Or.inr (List.mem_cons_of_mem y h)
      · intro x hx
        rcases List.mem_cons.mp hx with h | h
        · rw [h]; exact hm3
        · exact hm4 x h
      · intro he
        omega
      · intro x hx he
        rcases List.mem_cons.mp hx with h | h
        · rw [h] at he ⊢
          rw [hm5 (by omega)]
        · exact hm6 x h he
    · rw [if_neg hgt] at hr
      have hmt : ∀ x ∈ t, m < x := fun x hx => hlt x (List.mem_cons_of_mem y hx)
      obtain ⟨hm1, hm2, hm3, hm4, hm5, hm6⟩ := ih m hmt hpw2.2 r hr
      refine ⟨?_, hm2, hm3, ?_, hm5, ?_⟩
      · rcases hm1 with h | h
        · exact Or.inl h
        · exact Or.inr (List.mem_cons_of_mem y h)
      · intro x hx
        rcases List.mem_cons.mp hx with h | h
        · rw [h]; omega
        · exact hm4 x h
      · intro x hx he
        rcases List.mem_cons.mp hx with h | h
        · have hy : m < y := hlt y (List.mem_cons_self y t)
          rw [h] at he ⊢
          have : r.1 = f m := by omega
          rw [hm5 this]
          omega
        · exact hm6 x h he

/-- C4: with at least one legal column, the bot policy returns a column
that blocks an immediate opponent win when one exists, else takes an
immediate own win when one exists, else maximizes the heuristic score of
the simulated drop plus the center bias, with ties broken in favor of
the leftmost legal column. -/
theorem C4_bot_policy :
    ∀ (board : Board) (botID opponentID : String),
      GetValidMoves board ≠ [] →
      ∃ c, botChooseColumn board botID opponentID = some c ∧ c ∈ GetValidMoves board ∧
        (if ∃ col ∈ GetValidMoves board, botSimOppWins board opponentID col = true then
          botSimOppWins board opponentID c = true
        else if ∃ col ∈ GetValidMoves board, botSimBotWins board botID col = true then
          botSimBotWins board botID c = true
        else
          (∀ col ∈ GetValidMoves board,
            botMoveScore board botID opponentID col ≤ botMoveScore board botID opponentID c) ∧
          (∀ col ∈ GetValidMoves board,
            botMoveScore board botID opponentID col = botMoveScore board botID opponentID c →
              c ≤ col)) := by
  intro board botID opponentID hne
  cases hVM : GetValidMoves board with
  | nil => exact absurd hVM hne
  | cons first rest =>
    cases hF1 : (first :: rest).find? (fun col => botSimOppWins board opponentID col) with
    | some blockingColumn =>
      have hmem : blockingColumn ∈ first :: rest := List.mem_of_find?_eq_some hF1
      have hpred : botSimOppWins board opponentID blockingColumn = true := List.find?_some hF1
      have hchoose : botChooseColumn board botID opponentID = some blockingColumn := by
        unfold botChooseColumn
        rw [hVM]
        simp only [hF1]
      refine ⟨blockingColumn, hchoose, hmem, ?_⟩
      rw [if_pos ⟨blockingColumn, hmem, hpred⟩]
      exact hpred
    | none =>
      have hnone1 : ∀ x ∈ first :: rest, ¬(botSimOppWins board opponentID x = true) := by
        intro x hx
        simpa using List.find?_eq_none.mp hF1 x hx
      have hcond1 : ¬∃ col ∈ first :: rest, botSimOppWins board opponentID col = true := by
        rintro ⟨col, hcm, hcp⟩
        exact hnone1 col hcm hcp
      cases hF2 : (first :: rest).find? (fun col => botSimBotWins board botID col) with
      | some winColumn =>
        have hmem : winColumn ∈ first :: rest := List.mem_of_find?_eq_some hF2
        have hpred : botSimBotWins board botID winColumn = true := List.find?_some hF2
        have hchoose : botChooseColumn board botID opponentID = some winColumn := by
          unfold botChooseColumn
          rw [hVM]
          simp only [hF1, hF2]
        refine ⟨winColumn, hchoose, hmem, ?_⟩
        rw [if_neg hcond1, if_pos ⟨winColumn, hmem, hpred⟩]
        exact hpred
      | none =>
        have hnone2 : ∀ x ∈ first :: rest, ¬(botSimBotWins board botID x = true) := by
          intro x hx
          simpa using List.find?_eq_none.mp hF2 x hx
        have hcond2 : ¬∃ col ∈ first :: rest, botSimBotWins board botID col = true := by
          rintro ⟨col, hcm, hcp⟩
          exact hnone2 col hcm hcp
        have hsucc : ∀ x ∈ first :: rest, (MakeMove board x botID).1.Success = true := by
          intro x hx
          exact GetValidMoves_success board botID x (by rw [hVM]; exact hx)
        have hpw : (first :: rest).Pairwise (· < ·) := by
          have := GetValidMoves_pairwise board
          rwa [hVM] at this
        have hgt : ∀ x ∈ first :: rest, -999999 < botMoveScore board botID opponentID x := by
          intro x hx
          exact botMoveScore_gt_init board botID opponentID x (by rw [hVM]; exact hx)
        have hpure := botBestFold_eq_pure board botID opponentID (first :: rest)
          (-999999, first) hsucc
        have hstep : botBestFold board botID opponentID (first :: rest) (-999999, first) =
            rest.foldl
              (fun best col =>
                if botMoveScore board botID opponentID col > best.1 then
                  (botMoveScore board botID opponentID col, col)
                else best)
              (botMoveScore board botID opponentID first, first) := by
          rw [hpure]
          simp only [List.foldl_cons]
          rw [if_pos (hgt first (List.mem_cons_self first rest))]
        have hpw2 := List.pairwise_cons.mp hpw
        obtain ⟨hm1, hm2, hm3, hm4, hm5, hm6⟩ :=
          argmaxFold_spec (botMoveScore board botID opponentID) rest first hpw2.1 hpw2.2
            (botBestFold board botID opponentID (first :: rest) (-999999, first)) hstep
        have hchoose : botChooseColumn board botID opponentID =
            some (botBestFold board botID opponentID (first :: rest) (-999999, first)).2 := by
          unfold botChooseColumn
          rw [hVM]
          simp only [hF1, hF2]
        refine ⟨(botBestFold board botID opponentID (first :: rest) (-999999, first)).2,
          hchoose, ?_, ?_⟩
        · rcases hm1 with h | h
          · rw [h]
            exact List.mem_cons_self first rest
          · exact List.mem_cons_of_mem first h
        · rw [if_neg hcond1, if_neg hcond2]
          constructor
          · intro col hcol
            rcases List.mem_cons.mp hcol with h | h
            · rw [h, ← hm2]
              exact hm3
            · rw [← hm2]
              exact hm4 col h
          · intro col hcol he
            rcases List.mem_cons.mp hcol with h | h
            · rw [h]
              rw [h] at he
              rw [hm5 (by omega)]
            · exact hm6 col h (by omega)

/-- Closed witness for C4 on the empty board. -/
theorem C4_bot_policy_witness :
    GetValidMoves CreateBoard ≠ [] ∧
    ∃ c, botChooseColumn CreateBoard "bot" "a" = some c ∧ c ∈ GetValidMoves CreateBoard ∧
      (if ∃ col ∈ GetValidMoves CreateBoard, botSimOppWins CreateBoard "a" col = true then
        botSimOppWins CreateBoard "a" c = true
      else if ∃ col ∈ GetValidMoves CreateBoard, botSimBotWins CreateBoard "bot" col = true then
        botSimBotWins CreateBoard "bot" c = true
      else
        (∀ col ∈ GetValidMoves CreateBoard,
          botMoveScore CreateBoard "bot" "a" col ≤ botMoveScore CreateBoard "bot" "a" c) ∧
        (∀ col ∈ GetValidMoves CreateBoard,
          botMoveScore CreateBoard "bot" "a" col = botMoveScore CreateBoard "bot" "a" c →
            c ≤ col)) :=
  ⟨by decide, C4_bot_policy CreateBoard "bot" "a" (by decide)⟩

/-- A fallback firing against a non-waiting player changes nothing and
does not invoke the callback. -/
theorem fireBotMatch_of_not_waiting (s : Service) (pid : String)
    (h : s.isPlayerWaiting pid = false) : s.fireBotMatch pid = (s, false) := by
  unfold Service.fireBotMatch
  rw [h]
  simp

/-- A fallback firing against a waiting player invokes the callback and
removes the player from the queue. -/
theorem fireBotMatch_clears (s : Service) (pid : String)
    (h : s.isPlayerWaiting pid = true) :
    (s.fireBotMatch pid).2 = true ∧
    ((s.fireBotMatch pid).1).isPlayerWaiting pid = false := by
  have hEq : s.fireBotMatch pid =
      ({ waitingPlayers := s.waitingPlayers.filter fun p => decide (p.ID ≠ pid),
         botTimers := s.botTimers.filter fun id => decide (id ≠ pid) }, true) := by
    unfold Service.fireBotMatch
    rw [h]
    simp
  rw [hEq]
  refine ⟨rfl, ?_⟩
  show (List.find? (fun p => decide (p.ID = pid))
      (s.waitingPlayers.filter fun p => decide (p.ID ≠ pid))).isSome = false
  have hfind : List.find? (fun p => decide (p.ID = pid))
      (s.waitingPlayers.filter fun p => decide (p.ID ≠ pid)) = none := by
    rw [List.find?_eq_none]
    intro p hp
    have h2 := (List.mem_filter.mp hp).2
    simp only [decide_eq_true_eq] at h2 ⊢
    exact h2
  rw [hfind]
  rfl

/-- C6: when the matchmaking fallback timer fires for a player no longer
in the queue the callback is not invoked and the service state is
unchanged; and for a waiting player, a simulated double fire invokes the
callback exactly once, the second fire being a no-op. -/
theorem C6_fallback_fire :
    (∀ (s : Service) (pid : String),
      s.isPlayerWaiting pid = false → s.fireBotMatch pid = (s, false)) ∧
    (∀ (s : Service) (pid : String),
      s.isPlayerWaiting pid = true →
      (s.fireBotMatch pid).2 = true ∧
      ((s.fireBotMatch pid).1).fireBotMatch pid = ((s.fireBotMatch pid).1, false)) := by
  constructor
  · exact fireBotMatch_of_not_waiting
  · intro s pid h
    obtain ⟨h1, h2⟩ := fireBotMatch_clears s pid h
    exact ⟨h1, fireBotMatch_of_not_waiting _ pid h2⟩

/-- Closed witness for C6 on concrete queues. -/
theorem C6_fallback_fire_witness :
    (emptyService.isPlayerWaiting "p" = false ∧
      emptyService.fireBotMatch "p" = (emptyService, false)) ∧
    (cexService.isPlayerWaiting "p" = true ∧
      (cexService.fireBotMatch "p").2 = true ∧
      (cexService.fireBotMatch "p").1.fireBotMatch "p" =
        ((cexService.fireBotMatch "p").1, false)) :=
  ⟨⟨by decide, C6_fallback_fire.1 emptyService "p" (by decide)⟩,
    by decide,
    (C6_fallback_fire.2 cexService "p" (by decide)).1,
    (C6_fallback_fire.2 cexService "p" (by decide)).2⟩

/-- One queue operation keeps the waiting list at one entry at most. -/
theorem applyQOp_len (s : Service) (op : QOp)
    (h : s.waitingPlayers.length ≤ 1) : (applyQOp s op).waitingPlayers.length ≤ 1 := by
  obtain ⟨w, bt⟩ := s
  cases op with
  | add p =>
    unfold applyQOp Service.AddPlayer
    cases w with
    | nil => simp
    | cons e t =>
      simp only [List.length_cons] at h
      simp
      omega
  | remove conn =>
    unfold applyQOp Service.RemovePlayer
    simp only []
    calc (List.filter (fun p => decide (p.Conn ≠ conn)) w).length ≤ w.length :=
          List.length_filter_le _ _
      _ ≤ 1 := h

/-- C7: from the empty queue, any sequence of arrivals and withdrawals
leaves at most one waiting player; an arrival against a waiting entry
pops it, pairs the two and empties the queue; an arrival against an
empty queue enqueues the arrival and reports no match. -/
theorem C7_queue_invariant :
    (∀ ops : List QOp, (applyQOps emptyService ops).waitingPlayers.length ≤ 1) ∧
    (∀ (s : Service) (w p : MMPlayer), s.waitingPlayers = [w] →
      (s.AddPlayer p).1 = { Matched := true, Player1 := some w, Player2 := some p } ∧
      ((s.AddPlayer p).2).waitingPlayers = []) ∧
    (∀ (s : Service) (p : MMPlayer), s.waitingPlayers = [] →
      (s.AddPlayer p).1 = { Matched := false, Player1 := none, Player2 := none } ∧
      ((s.AddPlayer p).2).waitingPlayers = [p]) := by
  refine ⟨?_, ?_, ?_⟩
  · have hstep : ∀ (ops : List QOp) (s : Service),
        s.waitingPlayers.length ≤ 1 → (applyQOps s ops).waitingPlayers.length ≤ 1 := by
      intro ops
      induction ops with
      | nil => intro s h; exact h
      | cons op t ih =>
        intro s h
        exact ih (applyQOp s op) (applyQOp_len s op h)
    intro ops
    exact hstep ops emptyService (by simp [emptyService])
  · intro s w p hW
    obtain ⟨wl, bt⟩ := s
    simp only at hW
    subst hW
    exact ⟨rfl, rfl⟩
  · intro s p hW
    obtain ⟨wl, bt⟩ := s
    simp only at hW
    subst hW
    exact ⟨rfl, rfl⟩

/-- Closed witness for C7 at concrete queue states. -/
theorem C7_queue_invariant_witness :
    (applyQOps emptyService [QOp.add cexPat, QOp.add cexQuinn]).waitingPlayers.length ≤ 1 ∧
    (cexServicePat.AddPlayer cexQuinn).1 =
      { Matched := true, Player1 := some cexPat, Player2 := some cexQuinn } ∧
    (emptyService.AddPlayer cexQuinn).1 =
      { Matched := false, Player1 := none, Player2 := none } :=
  ⟨C7_queue_invariant.1 _,
    (C7_queue_invariant.2.1 cexServicePat cexPat cexQuinn (by decide)).1,
    (C7_queue_invariant.2.2 emptyService cexQuinn (by decide)).1⟩

/-- Reading no entry of an association list with a missing key. -/
theorem lookupKey_none_of_not_mem {α : Type} (k : String) :
    ∀ l : List (String × α), (∀ p ∈ l, p.1 ≠ k) → lookupKey l k = none := by
  intro l
  induction l with
  | nil => intro _; rfl
  | cons e t ih =>
    intro h
    simp only [lookupKey]
    rw [if_neg (h e (List.mem_cons_self _ _))]
    exact ih fun p hp => h p (List.mem_cons_of_mem _ hp)

/-- Replacing the keyed entry makes the map read back the new value. -/
theorem lookupKey_map_replace {α : Type} (k : String) (v : α) :
    ∀ l : List (String × α), (∃ p ∈ l, p.1 = k) →
      lookupKey (l.map fun p => if p.1 = k then (k, v) else p) k = some v := by
  intro l
  induction l with
  | nil => rintro ⟨p, hp, _⟩; cases hp
  | cons e t ih =>
    rintro ⟨p, hp, hpk⟩
    simp only [List.map_cons]
    by_cases he : e.1 = k
    · rw [if_pos he]
      simp only [lookupKey]
      simp
    · rw [if_neg he]
      simp only [lookupKey]
      rw [if_neg he]
      apply ih
      rcases List.mem_cons.mp hp with h | h
      · exact absurd (by rw [h] at hpk; exact hpk) he
      · exact ⟨p, h, hpk⟩

/-- Replacing the keyed entry leaves every other key unchanged. -/
theorem lookupKey_map_replace_ne {α : Type} (k k2 : String) (v : α) (hne : k2 ≠ k) :
    ∀ l : List (String × α),
      lookupKey (l.map fun p => if p.1 = k then (k, v) else p) k2 = lookupKey l k2 := by
  intro l
  induction l with
  | nil => rfl
  | cons e t ih =>
    simp only [List.map_cons]
    by_cases he : e.1 = k
    · rw [if_pos he]
      simp only [lookupKey]
      have h1 : ¬(k = k2) := fun h => hne h.symm
      have h2 : ¬(e.1 = k2) := by rw [he]; exact h1
      rw [if_neg h1, if_neg h2]
      exact ih
    · rw [if_neg he]
      simp only [lookupKey]
      by_cases hek : e.1 = k2
      · rw [if_pos hek, if_pos hek]
      · rw [if_neg hek, if_neg hek]
        exact ih

/-- Appending a fresh keyed entry makes the map read back its value. -/
theorem lookupKey_append_single {α : Type} (k : String) (v : α) :
    ∀ l : List (String × α), (∀ p ∈ l, p.1 ≠ k) →
      lookupKey (l ++ [(k, v)]) k = some v := by
  intro l
  induction l with
  | nil =>
    intro _
    simp only [List.nil_append, lookupKey]
    simp
  | cons e t ih =>
    intro h
    simp only [List.cons_append, lookupKey]
    rw [if_neg (h e (List.mem_cons_self _ _))]
    exact ih fun p hp => h p (List.mem_cons_of_mem _ hp)

/-- Appending a keyed entry leaves every other key unchanged. -/
theorem lookupKey_append_single_ne {α : Type} (k k2 : String) (v : α) (hne : k2 ≠ k) :
    ∀ l : List (String × α), lookupKey (l ++ [(k, v)]) k2 = lookupKey l k2 := by
  intro l
  induction l with
  | nil =>
    simp only [List.nil_append, lookupKey]
    rw [if_neg (show ¬((k, v).1 = k2) from fun h => hne h.symm)]
  | cons e t ih =>
    simp only [List.cons_append, lookupKey]
    by_cases hek : e.1 = k2
    · rw [if_pos hek, if_pos hek]
    · rw [if_neg hek, if_neg hek]
      exact ih

/-- A map write reads back the written value at its key. -/
theorem lookupKey_mapSet_self {α : Type} (l : List (String × α)) (k : String) (v : α) :
    lookupKey (mapSet l k v) k = some v := by
  unfold mapSet
  by_cases hany : l.any fun p => decide (p.1 = k)
  · rw [if_pos hany]
    apply lookupKey_map_replace
    obtain ⟨p, hp, hpk⟩ := List.any_eq_true.mp hany
    exact ⟨p, hp, by simpa using hpk⟩
  · rw [if_neg hany]
    apply lookupKey_append_single
    intro p hp hpk
    exact hany (List.any_eq_true.mpr ⟨p, hp, by simpa using hpk⟩)

/-- A map write leaves every other key unchanged. -/
theorem lookupKey_mapSet_ne {α : Type} (l : List (String × α)) (k k2 : String) (v : α)
    (hne : k2 ≠ k) : lookupKey (mapSet l k v) k2 = lookupKey l k2 := by
  unfold mapSet
  by_cases hany : l.any fun p => decide (p.1 = k)
  · rw [if_pos hany]
    exact lookupKey_map_replace_ne k k2 v hne l
  · rw [if_neg hany]
    exact lookupKey_append_single_ne k k2 v hne l

/-- A map delete removes its key. -/
theorem lookupKey_removeKey_self {α : Type} (l : List (String × α)) (k : String) :
    lookupKey (removeKey l k) k = none := by
  apply lookupKey_none_of_not_mem
  intro p hp
  have := (List.mem_filter.mp hp).2
  simpa using this

/-- A map delete leaves every other key unchanged. -/
theorem lookupKey_removeKey_ne {α : Type} (k k2 : String) (hne : k2 ≠ k) :
    ∀ l : List (String × α), lookupKey (removeKey l k) k2 = lookupKey l k2 := by
  intro l
  induction l with
  | nil => rfl
  | cons e t ih =>
    unfold removeKey at ih ⊢
    by_cases hek : e.1 = k
    · rw [List.filter_cons_of_neg (by simpa using hek)]
      have hR : lookupKey (e :: t) k2 = lookupKey t k2 := by
        simp only [lookupKey]
        rw [if_neg (by rw [hek]; exact fun h => hne h.symm)]
      rw [hR]
      exact ih
    · rw [List.filter_cons_of_pos (by simpa using hek)]
      simp only [lookupKey]
      by_cases h2 : e.1 = k2
      · rw [if_pos h2, if_pos h2]
      · rw [if_neg h2, if_neg h2]
        exact ih

/-- A board-level drop into an in-range full column fails with the
column-full message and returns the board unchanged. -/
theorem makeMove_full (board : Board) (column : Int) (pid : String)
    (h0 : 0 ≤ column) (h7 : column < (COLS : Int))
    (hfull : ∀ r, r < ROWS → getCellN board r column.toNat ≠ none) :
    MakeMove board column pid =
      ({ Success := false, Message := "Column is full", Row := 0 }, board) := by
  unfold MakeMove
  rw [if_neg (by omega)]
  have hnone : dropRowAux board column.toNat ROWS = none := by
    cases hD : dropRowAux board column.toNat ROWS with
    | none => rfl
    | some r =>
      obtain ⟨hr, hempty, _⟩ := dropRowAux_some board column.toNat ROWS r hD
      exact absurd hempty (hfull r hr)
  rw [hnone]

/-- A session-level move either succeeds or leaves the manager
unchanged. -/
theorem makeMove_not_success_unchanged :
    ∀ (m : Manager) (gameID : String) (column : Int) (conn : Option Nat) (now : Nat),
      (m.MakeMove gameID column conn now).1.Success = true ∨
      (m.MakeMove gameID column conn now).2 = m := by
  intro m gameID column conn now
  cases hG : lookupKey m.games gameID with
  | none =>
    right
    simp only [Manager.MakeMove, hG]
  | some g =>
    by_cases h1 : g.Status ≠ "active"
    · right
      simp only [Manager.MakeMove, hG]
      rw [if_pos h1]
    · by_cases h2 : (if g.CurrentPlayer = g.Player1.ID then g.Player1 else g.Player2).IsBot = true
      · right
        simp only [Manager.MakeMove, hG]
        rw [if_neg h1, if_pos h2]
      · by_cases h3 : (if g.CurrentPlayer = g.Player1.ID then g.Player1 else g.Player2).Conn ≠ conn
        · right
          simp only [Manager.MakeMove, hG]
          rw [if_neg h1, if_neg h2, if_pos h3]
        · by_cases h4 : column < 0 ∨ (COLS : Int) ≤ column
          · right
            simp only [Manager.MakeMove, hG]
            rw [if_neg h1, if_neg h2, if_neg h3, if_pos h4]
          · by_cases h5 : (ConnectFour.MakeMove g.Board column g.CurrentPlayer).1.Success = false
            · right
              simp only [Manager.MakeMove, hG]
              rw [if_neg h1, if_neg h2, if_neg h3, if_neg h4, if_pos h5]
            · left
              simp only [Manager.MakeMove, hG]
              rw [if_neg h1, if_neg h2, if_neg h3, if_neg h4, if_neg h5]

/-- C3: every validation failure of the session-level move - unknown
game, inactive game, wrong mover (decided by the stored connection
reference or the automated flag, not by name), out-of-range column, or
full column - returns Success false with the corresponding message and
leaves the manager state entirely unchanged; and every unsuccessful move
leaves the manager unchanged. -/
theorem C3_makeMove_validation :
    ∀ (m : Manager) (gameID : String) (column : Int) (conn : Option Nat) (now : Nat),
      ((m.MakeMove gameID column conn now).1.Success = false →
        (m.MakeMove gameID column conn now).2 = m) ∧
      (lookupKey m.games gameID = none →
        m.MakeMove gameID column conn now =
          ({ Success := false, Message := "Game not found", Game := none }, m)) ∧
      (∀ g, lookupKey m.games gameID = some g → g.Status ≠ "active" →
        m.MakeMove gameID column conn now =
          ({ Success := false, Message := "Game is not active", Game := none }, m)) ∧
      (∀ g, lookupKey m.games gameID = some g → g.Status = "active" →
        ((if g.CurrentPlayer = g.Player1.ID then g.Player1 else g.Player2).IsBot = true ∨
          (if g.CurrentPlayer = g.Player1.ID then g.Player1 else g.Player2).Conn ≠ conn) →
        m.MakeMove gameID column conn now =
          ({ Success := false, Message := "Not your turn", Game := none }, m)) ∧
      (∀ g, lookupKey m.games gameID = some g → g.Status = "active" →
        (if g.CurrentPlayer = g.Player1.ID then g.Player1 else g.Player2).IsBot = false →
        (if g.CurrentPlayer = g.Player1.ID then g.Player1 else g.Player2).Conn = conn →
        (column < 0 ∨ (COLS : Int) ≤ column) →
        m.MakeMove gameID column conn now =
          ({ Success := false, Message := "Invalid column", Game := none }, m)) ∧
      (∀ g, lookupKey m.games gameID = some g → g.Status = "active" →
        (if g.CurrentPlayer = g.Player1.ID then g.Player1 else g.Player2).IsBot = false →
        (if g.CurrentPlayer = g.Player1.ID then g.Player1 else g.Player2).Conn = conn →
        0 ≤ column → column < (COLS : Int) →
        (∀ r, r < ROWS → getCellN g.Board r column.toNat ≠ none) →
        m.MakeMove gameID column conn now =
          ({ Success := false, Message := "Column is full", Game := none }, m)) := by
  intro m gameID column conn now
  refine ⟨?_, ?_, ?_, ?_, ?_, ?_⟩
  · intro hfail
    rcases makeMove_not_success_unchanged m gameID column conn now with h | h
    · rw [h] at hfail
      cases hfail
    · exact h
  · intro hG
    simp only [Manager.MakeMove, hG]
  · intro g hG hstat
    simp only [Manager.MakeMove, hG]
    rw [if_pos hstat]
  · intro g hG hstat hturn
    simp only [Manager.MakeMove, hG]
    rw [if_neg (by simp [hstat])]
    rcases hturn with hbot | hconn
    · rw [if_pos hbot]
    · by_cases hbot :
        (if g.CurrentPlayer = g.Player1.ID then g.Player1 else g.Player2).IsBot = true
      · rw [if_pos hbot]
      · rw [if_neg hbot, if_pos hconn]
  · intro g hG hstat hbot hconn hcol
    simp only [Manager.MakeMove, hG]
    rw [if_neg (by simp [hstat]), if_neg (by simp [hbot]), if_neg (by simp [hconn]),
      if_pos hcol]
  · intro g hG hstat hbot hconn h0 h7 hfull
    have hMM := makeMove_full g.Board column g.CurrentPlayer h0 h7 hfull
    simp only [Manager.MakeMove, hG]
    rw [if_neg (by simp [hstat]), if_neg (by simp [hbot]), if_neg (by simp [hconn]),
      if_neg (by omega), hMM]
    simp

/-- Closed witness for C3 on the empty manager. -/
theorem C3_makeMove_validation_witness :
    lookupKey (Manager.games { games := [], reconnectWindows := [] }) "g" = none ∧
    Manager.MakeMove { games := [], reconnectWindows := [] } "g" 0 none 0 =
      ({ Success := false, Message := "Game not found", Game := none },
        { games := [], reconnectWindows := [] }) :=
  ⟨by decide,
    (C3_makeMove_validation { games := [], reconnectWindows := [] } "g" 0 none 0).2.1
      (by decide)⟩

/-- A fired forfeiture timer is a no-op once the window is gone. -/
theorem fireForfeit_no_window (m : Manager) (gameID pid : String) (now : Nat)
    (h : lookupKey m.reconnectWindows gameID = none) :
    m.fireForfeit gameID pid now = m := by
  unfold Manager.fireForfeit
  rw [h]

/-- C8: against an existing session with an existing reconnect window: a
username matching a participant before expiry succeeds, rebinds that
participant connection and clears the window, so the pending forfeiture
liveness check finds no window and does nothing; after expiry the rejoin
fails with the no-active-window message; a username matching neither
participant fails with the name-mismatch message and leaves the whole
manager state, window included, unchanged. -/
theorem C8_rejoin_window :
    ∀ (m : Manager) (conn : Option Nat) (username gameID : String) (now : Nat)
      (g : Game) (w : ReconnectWindow),
      lookupKey m.games gameID = some g →
      lookupKey m.reconnectWindows gameID = some w →
      ((¬w.ExpiresAt < now → g.Player1.Username = username →
        (m.RejoinGame conn username gameID now).1.Success = true ∧
        lookupKey ((m.RejoinGame conn username gameID now).2).reconnectWindows gameID = none ∧
        lookupKey ((m.RejoinGame conn username gameID now).2).games gameID =
          some { g with Player1 := { g.Player1 with Conn := conn } } ∧
        (∀ pid now2, ((m.RejoinGame conn username gameID now).2).fireForfeit gameID pid now2 =
          (m.RejoinGame conn username gameID now).2)) ∧
      (¬w.ExpiresAt < now → g.Player1.Username ≠ username → g.Player2.Username = username →
        (m.RejoinGame conn username gameID now).1.Success = true ∧
        lookupKey ((m.RejoinGame conn username gameID now).2).reconnectWindows gameID = none ∧
        lookupKey ((m.RejoinGame conn username gameID now).2).games gameID =
          some { g with Player2 := { g.Player2 with Conn := conn } } ∧
        (∀ pid now2, ((m.RejoinGame conn username gameID now).2).fireForfeit gameID pid now2 =
          (m.RejoinGame conn username gameID now).2)) ∧
      (w.ExpiresAt < now →
        (m.RejoinGame conn username gameID now).1 =
          { Success := false, Message := "Reconnection window expired", Game := none }) ∧
      (¬w.ExpiresAt < now → g.Player1.Username ≠ username → g.Player2.Username ≠ username →
        m.RejoinGame conn username gameID now =
          ({ Success := false, Message := "Username does not match this game", Game := none },
            m))) := by
  intro m conn username gameID now g w hG hW
  refine ⟨?_, ?_, ?_, ?_⟩
  · intro hexp hu1
    have hEq : m.RejoinGame conn username gameID now =
        ({ Success := true, Message := "",
           Game := some { g with Player1 := { g.Player1 with Conn := conn } } },
          { games := mapSet m.games gameID { g with Player1 := { g.Player1 with Conn := conn } },
            reconnectWindows := removeKey m.reconnectWindows gameID }) := by
      simp only [Manager.RejoinGame, hG, hW]
      rw [if_neg hexp, if_pos hu1]
    rw [hEq]
    refine ⟨rfl, ?_, ?_, ?_⟩
    · exact lookupKey_removeKey_self m.reconnectWindows gameID
    · exact lookupKey_mapSet_self m.games gameID _
    · intro pid now2
      exact fireForfeit_no_window _ gameID pid now2
        (lookupKey_removeKey_self m.reconnectWindows gameID)
  · intro hexp hu1 hu2
    have hEq : m.RejoinGame conn username gameID now =
        ({ Success := true, Message := "",
           Game := some { g with Player2 := { g.Player2 with Conn := conn } } },
          { games := mapSet m.games gameID { g with Player2 := { g.Player2 with Conn := conn } },
            reconnectWindows := removeKey m.reconnectWindows gameID }) := by
      simp only [Manager.RejoinGame, hG, hW]
      rw [if_neg hexp, if_neg hu1, if_pos hu2]
    rw [hEq]
    refine ⟨rfl, ?_, ?_, ?_⟩
    · exact lookupKey_removeKey_self m.reconnectWindows gameID
    · exact lookupKey_mapSet_self m.games gameID _
    · intro pid now2
      exact fireForfeit_no_window _ gameID pid now2
        (lookupKey_removeKey_self m.reconnectWindows gameID)
  · intro hexp
    simp only [Manager.RejoinGame, hG, hW]
    rw [if_pos hexp]
  · intro hexp hu1 hu2
    simp only [Manager.RejoinGame, hG, hW]
    rw [if_neg hexp, if_neg hu1, if_neg hu2]

/-- Closed witness for C8 on the concrete session and window. -/
theorem C8_rejoin_window_witness :
    lookupKey cexManagerW.games "g1" = some cexGame ∧
    lookupKey cexManagerW.reconnectWindows "g1" = some cexWindow ∧
    ((¬cexWindow.ExpiresAt < 50 → cexGame.Player1.Username = "alice" →
      (cexManagerW.RejoinGame (some 9) "alice" "g1" 50).1.Success = true ∧
      lookupKey ((cexManagerW.RejoinGame (some 9) "alice" "g1" 50).2).reconnectWindows "g1" =
        none ∧
      lookupKey ((cexManagerW.RejoinGame (some 9) "alice" "g1" 50).2).games "g1" =
        some { cexGame with Player1 := { cexGame.Player1 with Conn := some 9 } } ∧
      (∀ pid now2,
        ((cexManagerW.RejoinGame (some 9) "alice" "g1" 50).2).fireForfeit "g1" pid now2 =
          (cexManagerW.RejoinGame (some 9) "alice" "g1" 50).2)) ∧
    (¬cexWindow.ExpiresAt < 50 → cexGame.Player1.Username ≠ "alice" →
      cexGame.Player2.Username = "alice" →
      (cexManagerW.RejoinGame (some 9) "alice" "g1" 50).1.Success = true ∧
      lookupKey ((cexManagerW.RejoinGame (some 9) "alice" "g1" 50).2).reconnectWindows "g1" =
        none ∧
      lookupKey ((cexManagerW.RejoinGame (some 9) "alice" "g1" 50).2).games "g1" =
        some { cexGame with Player2 := { cexGame.Player2 with Conn := some 9 } } ∧
      (∀ pid now2,
        ((cexManagerW.RejoinGame (some 9) "alice" "g1" 50).2).fireForfeit "g1" pid now2 =
          (cexManagerW.RejoinGame (some 9) "alice" "g1" 50).2)) ∧
    (cexWindow.ExpiresAt < 50 →
      (cexManagerW.RejoinGame (some 9) "alice" "g1" 50).1 =
        { Success := false, Message := "Reconnection window expired", Game := none }) ∧
    (¬cexWindow.ExpiresAt < 50 → cexGame.Player1.Username ≠ "alice" →
      cexGame.Player2.Username ≠ "alice" →
      cexManagerW.RejoinGame (some 9) "alice" "g1" 50 =
        ({ Success := false, Message := "Username does not match this game", Game := none },
          cexManagerW))) :=
  ⟨by decide, by decide,
    C8_rejoin_window cexManagerW (some 9) "alice" "g1" 50 cexGame cexWindow
      (by decide) (by decide)⟩

/-- A session-level move either leaves the manager unchanged, or the
stored game was active and the result only rewrites that key. -/
theorem makeMove_games_shape :
    ∀ (m : Manager) (gameID : String) (column : Int) (conn : Option Nat) (now : Nat),
      (m.MakeMove gameID column conn now).2 = m ∨
      ∃ gA g2, lookupKey m.games gameID = some gA ∧ gA.Status = "active" ∧
        (m.MakeMove gameID column conn now).2 = { m with games := mapSet m.games gameID g2 } := by
  intro m gameID column conn now
  cases hG : lookupKey m.games gameID with
  | none =>
    left
    simp only [Manager.MakeMove, hG]
  | some g =>
    by_cases h1 : g.Status ≠ "active"
    · left
      simp only [Manager.MakeMove, hG]
      rw [if_pos h1]
    · by_cases h2 : (if g.CurrentPlayer = g.Player1.ID then g.Player1 else g.Player2).IsBot = true
      · left
        simp only [Manager.MakeMove, hG]
        rw [if_neg h1, if_pos h2]
      · by_cases h3 : (if g.CurrentPlayer = g.Player1.ID then g.Player1 else g.Player2).Conn ≠ conn
        · left
          simp only [Manager.MakeMove, hG]
          rw [if_neg h1, if_neg h2, if_pos h3]
        · by_cases h4 : column < 0 ∨ (COLS : Int) ≤ column
          · left
            simp only [Manager.MakeMove, hG]
            rw [if_neg h1, if_neg h2, if_neg h3, if_pos h4]
          · by_cases h5 : (ConnectFour.MakeMove g.Board column g.CurrentPlayer).1.Success = false
            · left
              simp only [Manager.MakeMove, hG]
              rw [if_neg h1, if_neg h2, if_neg h3, if_neg h4, if_pos h5]
            · right
              have hEx : ∃ g2, (m.MakeMove gameID column conn now).2 =
                  { m with games := mapSet m.games gameID g2 } := by
                simp only [Manager.MakeMove, hG, h1, h2, h3, h4, h5]
                exact ⟨_, rfl⟩
              obtain ⟨g2, hEq⟩ := hEx
              exact ⟨g, g2, rfl, by simpa using h1, hEq⟩

/-- A bot move either leaves the manager unchanged, or the stored game
was active and the result only rewrites that key. -/
theorem botMakeMove_games_shape :
    ∀ (m : Manager) (gameID : String) (column : Int) (now : Nat),
      (m.BotMakeMove gameID column now).2 = m ∨
      ∃ gA g2, lookupKey m.games gameID = some gA ∧ gA.Status = "active" ∧
        (m.BotMakeMove gameID column now).2 = { m with games := mapSet m.games gameID g2 } := by
  intro m gameID column now
  cases hG : lookupKey m.games gameID with
  | none =>
    left
    simp only [Manager.BotMakeMove, hG]
  | some g =>
    by_cases h1 : g.Status ≠ "active"
    · left
      simp only [Manager.BotMakeMove, hG]
      rw [if_pos h1]
    · by_cases h2 : g.CurrentPlayer ≠ "bot"
      · left
        simp only [Manager.BotMakeMove, hG]
        rw [if_neg h1, if_pos h2]
      · by_cases h3 : (ConnectFour.MakeMove g.Board column "bot").1.Success = false
        · left
          simp only [Manager.BotMakeMove, hG]
          rw [if_neg h1, if_neg h2, if_pos h3]
        · right
          have hEx : ∃ g2, (m.BotMakeMove gameID column now).2 =
              { m with games := mapSet m.games gameID g2 } := by
            simp only [Manager.BotMakeMove, hG, h1, h2, h3]
            exact ⟨_, rfl⟩
          obtain ⟨g2, hEq⟩ := hEx
          exact ⟨g, g2, rfl, by simpa using h1, hEq⟩

/-- A forfeiture preserves every finished session stored at any key. -/
theorem forfeit_preserves_finished (m : Manager) (gid : String) (g : Game)
    (hg : lookupKey m.games gid = some g) (hs : g.Status = "finished")
    (gid2 pid : String) (now : Nat) :
    ∃ g2, lookupKey ((m.ForfeitGame gid2 pid now).2).games gid = some g2 ∧
      g2.Status = "finished" := by
  cases hG2 : lookupKey m.games gid2 with
  | none =>
    refine ⟨g, ?_, hs⟩
    have h : (m.ForfeitGame gid2 pid now).2 = m := by
      simp only [Manager.ForfeitGame, hG2]
    rw [h]
    exact hg
  | some game =>
    by_cases h1 : game.Status ≠ "active"
    · refine ⟨g, ?_, hs⟩
      have h : (m.ForfeitGame gid2 pid now).2 = m := by
        simp only [Manager.ForfeitGame, hG2]
        rw [if_pos h1]
      rw [h]
      exact hg
    · by_cases heq : gid = gid2
      · exfalso
        rw [← heq] at hG2
        rw [hg] at hG2
        injection hG2 with hgg
        apply h1
        rw [← hgg, hs]
        decide
      · refine ⟨g, ?_, hs⟩
        have hEq : (m.ForfeitGame gid2 pid now).2 =
            { games := removeKey m.games gid2,
              reconnectWindows := removeKey m.reconnectWindows gid2 } := by
          simp only [Manager.ForfeitGame, hG2]
          rw [if_neg h1]
        rw [hEq]
        show lookupKey (removeKey m.games gid2) gid = some g
        rw [lookupKey_removeKey_ne gid2 gid heq]
        exact hg

/-- A session-level move preserves every finished session stored at any
key. -/
theorem makeMove_preserves_finished (m : Manager) (gid : String) (g : Game)
    (hg : lookupKey m.games gid = some g) (hs : g.Status = "finished")
    (gid2 : String) (column : Int) (conn : Option Nat) (now : Nat) :
    ∃ g2, lookupKey ((m.MakeMove gid2 column conn now).2).games gid = some g2 ∧
      g2.Status = "finished" := by
  rcases makeMove_games_shape m gid2 column conn now with h | ⟨gA, gN, hA, hAact, h⟩
  · rw [h]
    exact ⟨g, hg, hs⟩
  · by_cases heq : gid = gid2
    · exfalso
      rw [← heq] at hA
      rw [hg] at hA
      injection hA with hA
      apply absurd hAact
      rw [← hA, hs]
      decide
    · refine ⟨g, ?_, hs⟩
      rw [h]
      show lookupKey (mapSet m.games gid2 gN) gid = some g
      rw [lookupKey_mapSet_ne m.games gid2 gid gN heq]
      exact hg

/-- A bot move preserves every finished session stored at any key. -/
theorem botMakeMove_preserves_finished (m : Manager) (gid : String) (g : Game)
    (hg : lookupKey m.games gid = some g) (hs : g.Status = "finished")
    (gid2 : String) (column : Int) (now : Nat) :
    ∃ g2, lookupKey ((m.BotMakeMove gid2 column now).2).games gid = some g2 ∧
      g2.Status = "finished" := by
  rcases botMakeMove_games_shape m gid2 column now with h | ⟨gA, gN, hA, hAact, h⟩
  · rw [h]
    exact ⟨g, hg, hs⟩
  · by_cases heq : gid = gid2
    · exfalso
      rw [← heq] at hA
      rw [hg] at hA
      injection hA with hA
      apply absurd hAact
      rw [← hA, hs]
      decide
    · refine ⟨g, ?_, hs⟩
      rw [h]
      show lookupKey (mapSet m.games gid2 gN) gid = some g
      rw [lookupKey_mapSet_ne m.games gid2 gid gN heq]
      exact hg

/-- A rejoin preserves every finished session stored at any key: a
successful rejoin only rebinds a connection reference, which does not
change the status. -/
theorem rejoin_preserves_finished (m : Manager) (gid : String) (g : Game)
    (hg : lookupKey m.games gid = some g) (hs : g.Status = "finished")
    (conn : Option Nat) (username gid2 : String) (now : Nat) :
    ∃ g2, lookupKey ((m.RejoinGame conn username gid2 now).2).games gid = some g2 ∧
      g2.Status = "finished" := by
  cases hG2 : lookupKey m.games gid2 with
  | none =>
    refine ⟨g, ?_, hs⟩
    have h : (m.RejoinGame conn username gid2 now).2 = m := by
      simp only [Manager.RejoinGame, hG2]
    rw [h]
    exact hg
  | some game =>
    cases hW2 : lookupKey m.reconnectWindows gid2 with
    | none =>
      refine ⟨g, ?_, hs⟩
      have h : (m.RejoinGame conn username gid2 now).2 = m := by
        simp only [Manager.RejoinGame, hG2, hW2]
      rw [h]
      exact hg
    | some w =>
      by_cases hexp : w.ExpiresAt < now
      · have hEq : (m.RejoinGame conn username gid2 now).2 =
            (Manager.ForfeitGame
              { m with reconnectWindows := removeKey m.reconnectWindows gid2 }
              gid2 w.PlayerID now).2 := by
          simp only [Manager.RejoinGame, hG2, hW2]
          rw [if_pos hexp]
        rw [hEq]
        exact forfeit_preserves_finished
          { m with reconnectWindows := removeKey m.reconnectWindows gid2 } gid g hg hs
          gid2 w.PlayerID now
      · by_cases hu1 : game.Player1.Username = username
        · have hEq : (m.RejoinGame conn username gid2 now).2 =
              { games := mapSet m.games gid2
                  { game with Player1 := { game.Player1 with Conn := conn } },
                reconnectWindows := removeKey m.reconnectWindows gid2 } := by
            simp only [Manager.RejoinGame, hG2, hW2]
            rw [if_neg hexp, if_pos hu1]
          rw [hEq]
          by_cases heq : gid = gid2
          · subst heq
            refine ⟨{ game with Player1 := { game.Player1 with Conn := conn } }, ?_, ?_⟩
            · exact lookupKey_mapSet_self m.games gid _
            · show game.Status = "finished"
              rw [hg] at hG2
              injection hG2 with hgg
              rw [← hgg]
              exact hs
          · refine ⟨g, ?_, hs⟩
            show lookupKey (mapSet m.games gid2 _) gid = some g
            rw [lookupKey_mapSet_ne m.games gid2 gid _ heq]
            exact hg
        · by_cases hu2 : game.Player2.Username = username
          · have hEq : (m.RejoinGame conn username gid2 now).2 =
                { games := mapSet m.games gid2
                    { game with Player2 := { game.Player2 with Conn := conn } },
                  reconnectWindows := removeKey m.reconnectWindows gid2 } := by
              simp only [Manager.RejoinGame, hG2, hW2]
              rw [if_neg hexp, if_neg hu1, if_pos hu2]
            rw [hEq]
            by_cases heq : gid = gid2
            · subst heq
              refine ⟨{ game with Player2 := { game.Player2 with Conn := conn } }, ?_, ?_⟩
              · exact lookupKey_mapSet_self m.games gid _
              · show game.Status = "finished"
                rw [hg] at hG2
                injection hG2 with hgg
                rw [← hgg]
                exact hs
            · refine ⟨g, ?_, hs⟩
              show lookupKey (mapSet m.games gid2 _) gid = some g
              rw [lookupKey_mapSet_ne m.games gid2 gid _ heq]
              exact hg
          · refine ⟨g, ?_, hs⟩
            have h : (m.RejoinGame conn username gid2 now).2 = m := by
              simp only [Manager.RejoinGame, hG2, hW2]
              rw [if_neg hexp, if_neg hu1, if_neg hu2]
            rw [h]
            exact hg

/-- A fired forfeiture timer preserves every finished session. -/
theorem fireForfeit_preserves_finished (m : Manager) (gid : String) (g : Game)
    (hg : lookupKey m.games gid = some g) (hs : g.Status = "finished")
    (gid2 pid : String) (now : Nat) :
    ∃ g2, lookupKey ((m.fireForfeit gid2 pid now)).games gid = some g2 ∧
      g2.Status = "finished" := by
  cases hW : lookupKey m.reconnectWindows gid2 with
  | none =>
    have h : m.fireForfeit gid2 pid now = m := fireForfeit_no_window m gid2 pid now hW
    rw [h]
    exact ⟨g, hg, hs⟩
  | some w =>
    have h : m.fireForfeit gid2 pid now = (m.ForfeitGame gid2 pid now).2 := by
      unfold Manager.fireForfeit
      rw [hW]
    rw [h]
    exact forfeit_preserves_finished m gid g hg hs gid2 pid now

/-- Any single session-manager operation preserves every finished
session stored in the live map. -/
theorem op_preserves_finished (m : Manager) (gid : String) (g : Game)
    (hg : lookupKey m.games gid = some g) (hs : g.Status = "finished") (op : MgrOp) :
    ∃ g2, lookupKey (applyMgrOp m op).games gid = some g2 ∧ g2.Status = "finished" := by
  cases op with
  | makeMove gid2 column conn now => exact makeMove_preserves_finished m gid g hg hs gid2 column conn now
  | botMove gid2 column now => exact botMakeMove_preserves_finished m gid g hg hs gid2 column now
  | rejoin conn username gid2 now => exact rejoin_preserves_finished m gid g hg hs conn username gid2 now
  | forfeit gid2 pid now => exact forfeit_preserves_finished m gid g hg hs gid2 pid now
  | disconnect conn now => exact ⟨g, hg, hs⟩
  | fireForfeit gid2 pid now => exact fireForfeit_preserves_finished m gid g hg hs gid2 pid now

/-- A finished session in the live map stays there, still finished,
under every sequence of session-manager operations. -/
theorem finished_stays :
    ∀ (ops : List MgrOp) (m : Manager) (gid : String) (g : Game),
      lookupKey m.games gid = some g → g.Status = "finished" →
      ∃ g2, lookupKey (applyMgrOps m ops).games gid = some g2 ∧ g2.Status = "finished" := by
  intro ops
  induction ops with
  | nil => intro m gid g hg hs; exact ⟨g, hg, hs⟩
  | cons op t ih =>
    intro m gid g hg hs
    obtain ⟨g2, hg2, hs2⟩ := op_preserves_finished m gid g hg hs op
    exact ih (applyMgrOp m op) gid g2 hg2 hs2

/-- Counterexample to C2 as stated: a winning move finishes the concrete
session, yet the session is never evicted from the live games map - it
is still present immediately afterwards and remains present under every
sequence of session-manager operations, so no terminal win transition is
eventually evicted. -/
theorem C2_counterexample :
    (cexManager.MakeMove "g1" 0 (some 1) 5).1.Success = true ∧
    lookupKey cexAfter.games "g1" = some cexFinishedGame ∧
    cexFinishedGame.Status = "finished" ∧ cexFinishedGame.Winner = "a" ∧
    ∀ ops : List MgrOp, lookupKey (applyMgrOps cexAfter ops).games "g1" ≠ none := by
  refine ⟨by decide, by decide, by decide, by decide, ?_⟩
  intro ops
  obtain ⟨g2, hg2, _⟩ :=
    finished_stays ops cexAfter "g1" cexFinishedGame (by decide) (by decide)
  rw [hg2]
  simp

/-- C2 as amended: once a session is finished, the move and forfeit
operations never mutate the manager again; a forfeit of an active
session evicts it from the live map, and a second forfeit is a no-op
that evicts nothing; and a session-level move never removes the session
from the live map, so sessions finished by win or draw stay resident. -/
theorem C2_finished_sessions :
    ∀ (m : Manager) (gid : String) (g : Game),
      lookupKey m.games gid = some g →
      ((g.Status = "finished" →
        (∀ (column : Int) (conn : Option Nat) (now : Nat),
          (m.MakeMove gid column conn now).2 = m) ∧
        (∀ (column : Int) (now : Nat), (m.BotMakeMove gid column now).2 = m) ∧
        (∀ (pid : String) (now : Nat), m.ForfeitGame gid pid now = (none, m))) ∧
      (g.Status = "active" →
        ∀ (pid : String) (now : Nat),
          lookupKey ((m.ForfeitGame gid pid now).2).games gid = none ∧
          ∀ (pid2 : String) (now2 : Nat),
            ((m.ForfeitGame gid pid now).2).ForfeitGame gid pid2 now2 =
              (none, (m.ForfeitGame gid pid now).2)) ∧
      (∀ (column : Int) (conn : Option Nat) (now : Nat),
        lookupKey ((m.MakeMove gid column conn now).2).games gid ≠ none)) := by
  intro m gid g hg
  refine ⟨?_, ?_, ?_⟩
  · intro hfin
    refine ⟨?_, ?_, ?_⟩
    · intro column conn now
      simp only [Manager.MakeMove, hg]
      rw [if_pos (show g.Status ≠ "active" by rw [hfin]; decide)]
    · intro column now
      simp only [Manager.BotMakeMove, hg]
      rw [if_pos (show g.Status ≠ "active" by rw [hfin]; decide)]
    · intro pid now
      simp only [Manager.ForfeitGame, hg]
      rw [if_pos (show g.Status ≠ "active" by rw [hfin]; decide)]
  · intro hact pid now
    have hEq : (m.ForfeitGame gid pid now).2 =
        { games := removeKey m.games gid,
          reconnectWindows := removeKey m.reconnectWindows gid } := by
      simp only [Manager.ForfeitGame, hg]
      rw [if_neg (by simp [hact])]
    constructor
    · rw [hEq]
      exact lookupKey_removeKey_self m.games gid
    · intro pid2 now2
      rw [hEq]
      simp only [Manager.ForfeitGame, lookupKey_removeKey_self]
  · intro column conn now
    rcases makeMove_games_shape m gid column conn now with h | ⟨gA, gN, hA, hAact, h⟩
    · rw [h, hg]
      simp
    · rw [h]
      show lookupKey (mapSet m.games gid gN) gid ≠ none
      rw [lookupKey_mapSet_self]
      simp

/-- Closed witness for the amended C2 on the concrete session. -/
theorem C2_finished_sessions_witness :
    lookupKey cexManager.games "g1" = some cexGame ∧
    ((cexGame.Status = "finished" →
      (∀ (column : Int) (conn : Option Nat) (now : Nat),
        (cexManager.MakeMove "g1" column conn now).2 = cexManager) ∧
      (∀ (column : Int) (now : Nat), (cexManager.BotMakeMove "g1" column now).2 = cexManager) ∧
      (∀ (pid : String) (now : Nat), cexManager.ForfeitGame "g1" pid now = (none, cexManager))) ∧
    (cexGame.Status = "active" →
      ∀ (pid : String) (now : Nat),
        lookupKey ((cexManager.ForfeitGame "g1" pid now).2).games "g1" = none ∧
        ∀ (pid2 : String) (now2 : Nat),
          ((cexManager.ForfeitGame "g1" pid now).2).ForfeitGame "g1" pid2 now2 =
            (none, (cexManager.ForfeitGame "g1" pid now).2)) ∧
    (∀ (column : Int) (conn : Option Nat) (now : Nat),
      lookupKey ((cexManager.MakeMove "g1" column conn now).2).games "g1" ≠ none)) :=
  ⟨by decide, C2_finished_sessions cexManager "g1" cexGame (by decide)⟩

end ConnectFour
